import Mathlib

/-!
Verification development for the dungeon-simulation engine in `src/main.rs`:
a shallow embedding of its data model (tiles, rooms, maps, entities,
inventories, the floor manager and the per-floor snapshot store) and of the
operations the specification's claims are about, together with theorems
settling those claims.

Modelling conventions:
* Rust `i32` values are embedded as `Int` (the magnitudes reached by the
  program are far below overflow, which is noted wherever a cast matters).
* `f32` fields (`x`, `y`, `speed`, `last_move`, `perception`) only ever hold
  small integral or half-integral values in this program; coordinates are
  embedded as `Int` and the remaining stat fields as `Rat`.
* Randomness (`rand`'s `Rng` trait) is embedded as an explicit infinite
  stream of raw draws, threaded through every sampling call in program
  order; `StdRng::seed_from_u64` produces such a stream as a pure function
  of the seed and `thread_rng()` is an extra `ambient` stream argument.
* Rust panics (`unwrap`, out-of-bounds indexing) are embedded as `none`
  results where a claim depends on them; out-of-bounds *writes* inside the
  generator (which the generator's bounds guards make unreachable for the
  configurations the program uses) are embedded as no-ops.
-/

namespace Forge

/-! ## Random source -/

/-- Model of a `rand` random source: an infinite stream of raw draws,
consuming one draw per primitive sampling call. Both seeded `StdRng`
streams and the ambient `thread_rng()` are represented this way. -/
structure Rng where
  vals : Nat → Nat

/-- The next raw draw of the stream. -/
def Rng.head (r : Rng) : Nat := r.vals 0

/-- The stream after consuming one draw. -/
def Rng.tail (r : Rng) : Rng := ⟨fun n => r.vals (n + 1)⟩

/-- `rng.gen_range(lo..hi)`: a value in `[lo, hi)`, modelled as
`lo + draw % (hi - lo)`. An empty range is a Rust panic; it is mapped to
`lo` here and never reached by the configurations the program uses. -/
def gen_range (r : Rng) (lo hi : Int) : Int × Rng :=
  if lo < hi then (lo + Int.ofNat (r.head % (hi - lo).toNat), r.tail) else (lo, r.tail)

/-- `rng.gen_bool(p)` for a probability `p = num / den`, modelled as one
draw tested against the numerator. -/
def gen_bool (r : Rng) (num den : Nat) : Bool × Rng :=
  (r.head % den < num, r.tail)

/-- Model of `StdRng::seed_from_u64`: a stream that is a pure function of
the seed. The exact ChaCha word sequence is abstracted by an arithmetic
mixing function; every use in the development only relies on the stream
being determined by the seed. -/
def seed_from_u64 (seed : Nat) : Rng :=
  ⟨fun n => (seed * 6364136223846793005 + n * 1442695040888963407 + 1) % (2 ^ 64)⟩

/-! ## Tiles and rooms -/

/-- The four tile kinds of a floor's grid. -/
inductive Tile
  | Wall
  | Floor
  | StairsUp
  | StairsDown
  deriving DecidableEq, Repr

/-- A placed rectangular room (origin and extent, `i32` fields). -/
structure Room where
  x : Int
  y : Int
  width : Int
  height : Int
  deriving DecidableEq, Repr

/-- `Room::new`. -/
def Room.new (x y width height : Int) : Room := ⟨x, y, width, height⟩

/-- `Room::center`: origin plus half the extent, with Rust `i32` division
(truncation towards zero; all generated rooms have positive coordinates,
where `Int.div` agrees with it). -/
def Room.center (self : Room) : Int × Int :=
  (self.x + Int.tdiv self.width 2, self.y + Int.tdiv self.height 2)

/-- `Room::intersects`: boundary-inclusive rectangle overlap test. -/
def Room.intersects (self other : Room) : Bool :=
  decide (self.x ≤ other.x + other.width) && decide (other.x ≤ self.x + self.width) &&
  decide (self.y ≤ other.y + other.height) && decide (other.y ≤ self.y + self.height)

/-- `Room::random_position`: a uniformly drawn interior cell. -/
def Room.random_position (self : Room) (rng : Rng) : (Int × Int) × Rng :=
  let xr := gen_range rng (self.x + 1) (self.x + self.width - 1)
  let yr := gen_range xr.2 (self.y + 1) (self.y + self.height - 1)
  ((xr.1, yr.1), yr.2)

/-- `Room::inner_tiles`: all interior cells, rows outermost. -/
def intRange (a b : Int) : List Int :=
  (List.range (b - a).toNat).map (fun i => a + Int.ofNat i)

/-! ## The map and its generator -/

/-- A floor (`Map` in the source): dimensions, tile grid (row-major,
`tiles[y][x]`), the organized room structure, floor index, and cached
stairs coordinates (stored as `usize` pairs `(x, y)`). -/
structure Map where
  width : Nat
  height : Nat
  tiles : List (List Tile)
  rooms : List (List Room)
  level : Int
  up_stairs : Option (Nat × Nat)
  down_stairs : Option (Nat × Nat)
  deriving DecidableEq, Repr

/-- A `height × width` all-wall grid (`vec![vec![Tile::Wall; width]; height]`). -/
def wallGrid (width height : Nat) : List (List Tile) :=
  List.replicate height (List.replicate width Tile.Wall)

/-- Write one tile of the grid; an out-of-range index leaves the grid
unchanged (the source's writes are guarded or in range wherever a claim
depends on them). -/
def setTile (tiles : List (List Tile)) (y x : Nat) (t : Tile) : List (List Tile) :=
  match tiles.get? y with
  | none => tiles
  | some row => tiles.set y (row.set x t)

/-- The Rust guard pattern `idx as usize >= len` (a negative `i32` wraps to
a huge `usize`): the write happens exactly when `0 ≤ idx < len`. -/
def inBounds (idx : Int) (len : Nat) : Bool :=
  decide (0 ≤ idx) && decide (idx.toNat < len)

/-- `Map::create_room`: carve the room's rectangle as floor tiles, skipping
out-of-range rows and columns exactly as the source's `continue` guards do. -/
def Map.create_room (self : Map) (room : Room) : Map :=
  { self with tiles :=
      (intRange room.y (room.y + room.height)).foldl (fun ts y =>
        if inBounds y self.height then
          (intRange room.x (room.x + room.width)).foldl (fun ts2 x =>
            if inBounds x self.width then setTile ts2 y.toNat x.toNat Tile.Floor else ts2) ts
        else ts) self.tiles }

/-- `Map::create_horizontal_tunnel`: carve the span `[min x1 x2, max x1 x2]`
at row `y` as floor tiles, skipping out-of-range cells as the source does. -/
def Map.create_horizontal_tunnel (self : Map) (x1 x2 y : Int) : Map :=
  if inBounds y self.height then
    let ts :=
      (intRange (min x1 x2) (max x1 x2 + 1)).foldl (fun ts x =>
        if inBounds x self.width then setTile ts y.toNat x.toNat Tile.Floor else ts) self.tiles
    { self with tiles := ts }
  else self

/-- `Map::create_vertical_tunnel`. -/
def Map.create_vertical_tunnel (self : Map) (y1 y2 x : Int) : Map :=
  if inBounds x self.width then
    let ts :=
      (intRange (min y1 y2) (max y1 y2 + 1)).foldl (fun ts y =>
        if inBounds y self.height then setTile ts y.toNat x.toNat Tile.Floor else ts) self.tiles
    { self with tiles := ts }
  else self

/-- `Map::is_walkable`: inside the grid and not a wall. -/
def Map.is_walkable (self : Map) (x y : Int) : Bool :=
  if x < 0 || y < 0 || Int.ofNat self.width ≤ x || Int.ofNat self.height ≤ y then false
  else
    match (self.tiles.getD y.toNat []).getD x.toNat Tile.Wall with
    | Tile.Wall => false
    | _ => true

/-- One room-placement attempt of the generator's loop body: sample a
rectangle, reject it if it overlaps any previously accepted room
(boundary-inclusive), otherwise carve it, connect it to the previously
accepted room by an L-shaped corridor (coin-flipped orientation), and
append it to the accepted list. State is `(map, temp_rooms, rng)`. -/
def genAttempt (st : Map × List Room × Rng) : Map × List Room × Rng :=
  let m := st.1
  let temp_rooms := st.2.1
  let wr := gen_range st.2.2 5 10
  let hr := gen_range wr.2 5 10
  let xr := gen_range hr.2 1 (Int.ofNat m.width - wr.1 - 1)
  let yr := gen_range xr.2 1 (Int.ofNat m.height - hr.1 - 1)
  let new_room := Room.new xr.1 yr.1 wr.1 hr.1
  if temp_rooms.any (fun r => r.intersects new_room) then (m, temp_rooms, yr.2)
  else
    let m1 := m.create_room new_room
    match temp_rooms.getLast? with
    | none => (m1, temp_rooms ++ [new_room], yr.2)
    | some prev_room =>
      let pc := prev_room.center
      let nc := new_room.center
      let br := gen_bool yr.2 1 2
      let m2 :=
        if br.1 then
          (m1.create_horizontal_tunnel pc.1 nc.1 pc.2).create_vertical_tunnel pc.2 nc.2 nc.1
        else
          (m1.create_vertical_tunnel pc.2 nc.2 pc.1).create_horizontal_tunnel pc.1 nc.1 nc.2
      (m2, temp_rooms ++ [new_room], br.2)

/-- The up-stairs placement tail of `generate_dungeon_with_stairs_seeded`:
on floors below the first, carve the inherited up-stairs if one was handed
down, otherwise place one at the first room's center. -/
def stairsUpStep (m : Map) : Map :=
  if 0 < m.level then
    match m.up_stairs with
    | some p => { m with tiles := setTile m.tiles p.2 p.1 Tile.StairsUp }
    | none =>
      match m.rooms.head? with
      | some first_row =>
        match first_row.head? with
        | some first_room =>
          let c := first_room.center
          { m with tiles := setTile m.tiles c.2.toNat c.1.toNat Tile.StairsUp,
                   up_stairs := some (c.1.toNat, c.2.toNat) }
        | none => m
      | none => m
  else m

/-- The down-stairs placement tail: above the deepest floor, carve a
down-stairs at the center of the last room of the last row. -/
def stairsDownStep (m : Map) : Map :=
  if m.level < 9 then
    match m.rooms.getLast? with
    | some last_row =>
      match last_row.getLast? with
      | some last_room =>
        let c := last_room.center
        { m with tiles := setTile m.tiles c.2.toNat c.1.toNat Tile.StairsDown,
                 down_stairs := some (c.1.toNat, c.2.toNat) }
      | none => m
    | none => m
  else m

/-- `Map::generate_dungeon_with_stairs_seeded`: reset the grid to walls,
run 15 placement attempts threading the provided rng, store the accepted
rooms as the single row `[temp_rooms]`, and place stairs. -/
def Map.generate_dungeon_with_stairs_seeded (self : Map) (rng : Rng) : Map :=
  let init : Map × List Room × Rng :=
    ({ self with tiles := wallGrid self.width self.height, rooms := [] }, [], rng)
  let st := (List.range 15).foldl (fun acc _ => genAttempt acc) init
  stairsDownStep (stairsUpStep { st.1 with rooms := [st.2.1] })

/-- `Map::new`. The `ambient` argument models the process's ambient
randomness (`thread_rng()`); this constructor never consults it — the
generator's source is `StdRng::seed_from_u64(level as u64)`, a pure
function of the floor index alone (`i32 → u64` casts wrap modulo `2^64`). -/
def Map.new (ambient : Rng) (width height : Nat) (level : Int)
    (stairs_up_pos : Option (Nat × Nat)) : Map :=
  let _ := ambient
  let m : Map :=
    { width := width, height := height, tiles := wallGrid width height, rooms := [],
      level := level, up_stairs := stairs_up_pos, down_stairs := none }
  m.generate_dungeon_with_stairs_seeded (seed_from_u64 (level % (2 ^ 64)).toNat)

/-- Stable insertion used to model Rust's stable `sort_by_key`: the new
element goes before strictly greater keys and after earlier equal keys. -/
def insertByKey (key : Room → Int) (r : Room) : List Room → List Room
  | [] => [r]
  | a :: rest => if key a < key r then a :: insertByKey key r rest else r :: a :: rest

/-- Stable sort by key (insertion sort, folded from the right). -/
def sortByKey (key : Room → Int) (l : List Room) : List Room :=
  l.foldr (insertByKey key) []

/-- `Map::organize_rooms` as a pure function of the accepted rooms: sort by
vertical coordinate (stable), group successive rooms whose vertical origin
lies within a band of 10 of the row's anchor, then sort each row by
horizontal coordinate. -/
def organize_rooms (temp_rooms : List Room) : List (List Room) :=
  let room_height : Int := 10
  let sorted_rooms := sortByKey (fun room => room.y) temp_rooms
  match sorted_rooms with
  | [] => []
  | first :: _ =>
    let st := sorted_rooms.foldl
      (fun (acc : List (List Room) × List Room × Int) room =>
        let organized := acc.1
        let current_row := acc.2.1
        let current_y := acc.2.2
        if room_height < |room.y - current_y| then
          let organized := if current_row.isEmpty then organized else organized ++ [current_row]
          (organized, [room], room.y)
        else (organized, current_row ++ [room], current_y))
      ([], [], first.y)
    let organized := if st.2.1.isEmpty then st.1 else st.1 ++ [st.2.1]
    organized.map (sortByKey (fun room => room.x))

/-- The accepted-rooms accumulator (`temp_rooms`) of a generator run. -/
def acceptedRooms (self : Map) (rng : Rng) : List Room :=
  ((List.range 15).foldl (fun acc _ => genAttempt acc)
    ({ self with tiles := wallGrid self.width self.height, rooms := [] }, [], rng)).2.1

lemma stairsUpStep_rooms (m : Map) : (stairsUpStep m).rooms = m.rooms := by
  unfold stairsUpStep
  repeat' split
  all_goals rfl

lemma stairsDownStep_rooms (m : Map) : (stairsDownStep m).rooms = m.rooms := by
  unfold stairsDownStep
  repeat' split
  all_goals rfl

/-- The generator stores the accepted rooms as a single row, in acceptance
order; `organize_rooms` is not invoked on this code path. -/
lemma generate_rooms_single_row (self : Map) (rng : Rng) :
    (self.generate_dungeon_with_stairs_seeded rng).rooms = [acceptedRooms self rng] := by
  unfold Map.generate_dungeon_with_stairs_seeded acceptedRooms
  rw [stairsDownStep_rooms, stairsUpStep_rooms]

/-! ## Generator invariants and claims about generation -/

/-- Pairwise non-overlap under the source's boundary-inclusive test: every
earlier accepted room fails `intersects` against every later one. -/
def roomsDisjoint (l : List Room) : Prop :=
  l.Pairwise (fun a b => a.intersects b = false)

lemma accept_step_disjoint (temp : List Room) (nr : Room) (h : roomsDisjoint temp)
    (hno : temp.any (fun r => r.intersects nr) = false) :
    roomsDisjoint (temp ++ [nr]) := by
  rw [roomsDisjoint, List.pairwise_append]
  refine ⟨h, List.pairwise_singleton _ _, ?_⟩
  intro a ha b hb
  rw [List.mem_singleton] at hb
  subst hb
  have hall := List.any_eq_false.mp hno
  simpa using hall a ha

lemma genAttempt_disjoint (st : Map × List Room × Rng) (h : roomsDisjoint st.2.1) :
    roomsDisjoint (genAttempt st).2.1 := by
  simp only [genAttempt]
  split
  · exact h
  · rename_i hno
    rw [Bool.not_eq_true] at hno
    split
    · exact accept_step_disjoint _ _ h hno
    · exact accept_step_disjoint _ _ h hno

lemma genFold_disjoint (l : List Nat) (init : Map × List Room × Rng)
    (h : roomsDisjoint init.2.1) :
    roomsDisjoint ((l.foldl (fun acc _ => genAttempt acc) init)).2.1 := by
  induction l generalizing init with
  | nil => exact h
  | cons a rest ih => exact ih _ (genAttempt_disjoint _ h)

lemma acceptedRooms_disjoint (self : Map) (rng : Rng) :
    roomsDisjoint (acceptedRooms self rng) := by
  unfold acceptedRooms
  exact genFold_disjoint _ _ (List.Pairwise.nil)

/-- C3: Map generation is deterministic in the floor index: constructing a
floor twice with the same width, height, floor index and inherited
up-stairs argument yields an identical tile grid and room layout, for any
two states of the ambient (`thread_rng`) randomness — the generator's
random source is seeded solely by the floor index. -/
theorem c3_map_new_deterministic (a1 a2 : Rng) (w h : Nat) (level : Int)
    (up : Option (Nat × Nat)) :
    (Map.new a1 w h level up).tiles = (Map.new a2 w h level up).tiles ∧
    (Map.new a1 w h level up).rooms = (Map.new a2 w h level up).rooms :=
  ⟨rfl, rfl⟩

/-- The raw-draw stream used to refute C5: it makes the generator accept
exactly two rooms, at `(1, 20)` and then `(1, 2)`, i.e. out of vertical
order, and rejects every later attempt. -/
def c5rng : Rng :=
  ⟨fun n =>
    if n = 3 then 19
    else if n = 7 then 1
    else if 9 ≤ n ∧ (n - 9) % 4 = 3 then 19
    else 0⟩

/-- A blank floor of the program's configured dimensions (50 × 40). -/
def c5base : Map :=
  { width := 50, height := 40, tiles := wallGrid 50 40, rooms := [], level := 0,
    up_stairs := none, down_stairs := none }

def c5map : Map := c5base.generate_dungeon_with_stairs_seeded c5rng

/-- C5, counterexample: the stored room structure of a generated floor is
not the row partition (sort by vertical coordinate, group into bands, sort
rows horizontally) of its accepted rooms: the floor generated by `c5rng`
stores `[[(1,20,5,5), (1,2,5,5)]]` while the partition described by the
claim is `[[(1,2,5,5)], [(1,20,5,5)]]`. -/
theorem c5_counterexample : c5map.rooms ≠ organize_rooms c5map.rooms.flatten := by
  decide

/-- C5, amended: the seeded generator stores the accepted rooms as a single
row in acceptance order; it never invokes the row-partitioning
(`organize_rooms`) step, which only the dead `generate_dungeon` path uses. -/
theorem c5_amended_single_row (self : Map) (rng : Rng) :
    (self.generate_dungeon_with_stairs_seeded rng).rooms = [acceptedRooms self rng] :=
  generate_rooms_single_row self rng

/-- C8: on every generated floor, the accepted rooms are pairwise
non-overlapping under the boundary-inclusive `intersects` test — every
accepted room fails the test against each previously accepted room; this
holds for every rng stream, and in particular for every floor built by
`Map::new`. -/
theorem c8_rooms_disjoint (self : Map) (rng : Rng) (ambient : Rng) (w h : Nat)
    (level : Int) (up : Option (Nat × Nat)) :
    roomsDisjoint (self.generate_dungeon_with_stairs_seeded rng).rooms.flatten ∧
    roomsDisjoint (Map.new ambient w h level up).rooms.flatten := by
  constructor
  · rw [generate_rooms_single_row]
    simpa using acceptedRooms_disjoint self rng
  · simp only [Map.new]
    rw [generate_rooms_single_row]
    simpa using acceptedRooms_disjoint _ _

/-! ## Items, inventories, entities and combat -/

/-- The palette constants the program attaches to entities and items
(render-only payload, embedded as an enumeration). -/
inductive Color
  | yellow
  | red
  | skyblue
  | lightgray
  | pink
  deriving DecidableEq, Repr

/-- The player's progression state. -/
structure LevelSystem where
  level : Int
  current_xp : Int
  xp_to_next_level : Int
  deriving DecidableEq, Repr

/-- `LevelSystem::new`. -/
def LevelSystem.new : LevelSystem :=
  { level := 1, current_xp := 0, xp_to_next_level := 100 }

/-- `LevelSystem::level_up`: the next threshold `(x as f32 * 1.5) as i32`
is embedded as `(x * 3).tdiv 2`, exact for every threshold this program
reaches (f32 represents the halves exactly; the cast truncates to zero). -/
def LevelSystem.level_up (self : LevelSystem) : LevelSystem :=
  { level := self.level + 1,
    current_xp := self.current_xp - self.xp_to_next_level,
    xp_to_next_level := Int.tdiv (self.xp_to_next_level * 3) 2 }

/-- `LevelSystem::add_xp`: returns the updated state and whether a
level-up fired. -/
def LevelSystem.add_xp (self : LevelSystem) (xp : Int) : LevelSystem × Bool :=
  let s1 : LevelSystem := { self with current_xp := self.current_xp + xp }
  if s1.xp_to_next_level ≤ s1.current_xp then (s1.level_up, true) else (s1, false)

/-- Scroll effects. -/
inductive Effect
  | Teleport
  | Lightning (damage : Int)
  | Fireball (damage : Int)
  | Confusion (duration : Int)
  deriving DecidableEq, Repr

/-- Item kinds with their payloads. -/
inductive ItemType
  | Weapon (bonus : Int)
  | Armor (bonus : Int)
  | Potion (heal : Int)
  | Scroll (effect : Effect)
  deriving DecidableEq, Repr

/-- An item. -/
structure Item where
  name : String
  item_type : ItemType
  symbol : Char
  color : Color
  deriving DecidableEq, Repr

/-- `Item::new_sword`. -/
def Item.new_sword : Item :=
  { name := "Sword", item_type := ItemType.Weapon 2, symbol := '/', color := Color.skyblue }

/-- `Item::new_armor`. -/
def Item.new_armor : Item :=
  { name := "Chain Mail", item_type := ItemType.Armor 2, symbol := '[',
    color := Color.lightgray }

/-- `Item::new_health_potion`. -/
def Item.new_health_potion : Item :=
  { name := "Health Potion", item_type := ItemType.Potion 10, symbol := '!',
    color := Color.pink }

/-- `Item::new_lightning_scroll`. -/
def Item.new_lightning_scroll : Item :=
  { name := "Lightning Scroll", item_type := ItemType.Scroll (Effect.Lightning 20),
    symbol := '?', color := Color.yellow }

/-- A carried-item store with equipment slots. -/
structure Inventory where
  items : List Item
  capacity : Nat
  equipped_weapon : Option Item
  equipped_armor : Option Item
  deriving DecidableEq, Repr

/-- `Inventory::new`. -/
def Inventory.new (capacity : Nat) : Inventory :=
  { items := [], capacity := capacity, equipped_weapon := none, equipped_armor := none }

/-- `Inventory::get_equipment_bonuses`: `(weapon bonus, armor bonus)` of
the equipped slots, zero for empty or mismatched slots. -/
def Inventory.get_equipment_bonuses (self : Inventory) : Int × Int :=
  let weapon_bonus := (self.equipped_weapon.bind (fun w =>
    match w.item_type with
    | ItemType.Weapon bonus => some bonus
    | _ => none)).getD 0
  let armor_bonus := (self.equipped_armor.bind (fun a =>
    match a.item_type with
    | ItemType.Armor bonus => some bonus
    | _ => none)).getD 0
  (weapon_bonus, armor_bonus)

/-- An actor's stat block. The `f32` stats only ever hold small halves in
this program and are embedded as `Rat`. -/
structure Stats where
  hp : Int
  max_hp : Int
  attack : Int
  defense : Int
  speed : Rat
  last_move : Rat
  perception : Rat
  level_system : Option LevelSystem
  deriving DecidableEq, Repr

/-- An actor (player or monster). Coordinates are `f32` in the source but
only ever hold whole cell values; they are embedded as `Int`. -/
structure Entity where
  x : Int
  y : Int
  symbol : Char
  color : Color
  stats : Stats
  is_player : Bool
  inventory : Option Inventory
  deriving DecidableEq, Repr

/-- `Entity::new_player`. -/
def Entity.new_player : Entity :=
  { x := 5, y := 5, symbol := '@', color := Color.yellow,
    stats := { hp := 30, max_hp := 30, attack := 5, defense := 2, speed := 10,
               last_move := 0, perception := 8, level_system := some LevelSystem.new },
    is_player := true, inventory := some (Inventory.new 20) }

/-- `Entity::new_monster`. -/
def Entity.new_monster (x y : Int) : Entity :=
  { x := x, y := y, symbol := 'g', color := Color.red,
    stats := { hp := 15, max_hp := 15, attack := 3, defense := 1, speed := 2,
               last_move := 0, perception := 8, level_system := none },
    is_player := false, inventory := none }

/-- `Entity::is_alive`. -/
def Entity.is_alive (self : Entity) : Bool :=
  decide (0 < self.stats.hp)

/-- `Entity::level_up`: stat growth on level-up. -/
def Entity.level_up (self : Entity) : Entity :=
  let s1 := { self.stats with max_hp := self.stats.max_hp + 5 }
  let half : Rat := (1 : Rat) / 2
  let s2 := { s1 with
    hp := s1.max_hp
    attack := s1.attack + 2
    defense := s1.defense + 1
    perception := s1.perception + half }
  { self with stats := s2 }

/-- `Entity::attack`: damage is `max(1, attacker.attack − defender.defense)`
off the base stat blocks; the defender's hp drops by it, and a player kill
grants 50 XP with a possible level-up. Returns the updated attacker, the
updated defender, and the emitted messages. -/
def Entity.attack (self target : Entity) : Entity × Entity × List String :=
  let damage := max (self.stats.attack - target.stats.defense) 1
  let target1 := { target with stats := { target.stats with hp := target.stats.hp - damage } }
  let base := [(if self.is_player then "Player" else "Monster") ++ " hits " ++
               (if target1.is_player then "Player" else "Monster") ++ " for " ++
               toString damage ++ " damage!"]
  if self.is_player && !target1.is_alive then
    match self.stats.level_system with
    | some ls =>
      let xp_gained : Int := 50
      let msgs := base ++ ["Gained " ++ toString xp_gained ++ " XP!"]
      let current_level := ls.level
      let res := ls.add_xp xp_gained
      let self1 := { self with stats := { self.stats with level_system := some res.1 } }
      if res.2 then
        (self1.level_up, target1,
          msgs ++ ["Level Up! You are now level " ++ toString (current_level + 1) ++ "!"])
      else (self1, target1, msgs)
    | none => (self, target1, base)
  else (self, target1, base)

/-- `Entity::get_total_attack`: base attack plus the equipped weapon bonus. -/
def Entity.get_total_attack (self : Entity) : Int :=
  self.stats.attack + ((self.inventory.map Inventory.get_equipment_bonuses).getD (0, 0)).1

/-- `Entity::get_total_defense`: base defense plus the equipped armor bonus. -/
def Entity.get_total_defense (self : Entity) : Int :=
  self.stats.defense + ((self.inventory.map Inventory.get_equipment_bonuses).getD (0, 0)).2

lemma attack_target_eq (a t : Entity) :
    (Entity.attack a t).2.1 =
      { t with stats :=
          { t.stats with hp := t.stats.hp - max (a.stats.attack - t.stats.defense) 1 } } := by
  simp only [Entity.attack]
  repeat' split
  all_goals rfl

/-- The `min_by_key` sort key of `GameState::find_closest_monster`:
`(distance * 100.0) as i32` for a monster within range, `i32::MAX`
otherwise. On the whole-cell coordinates this program uses,
`distance ≤ max_range` is exactly `d² ≤ max_range²` and the truncated
`100·√d²` is exactly `Nat.sqrt (10000·d²)`. -/
def monsterKey (mo : Entity) (x y max_range : Int) : Int :=
  let d2 := ((mo.x - x) ^ 2 + (mo.y - y) ^ 2).toNat
  if (d2 : Int) ≤ max_range ^ 2 then Int.ofNat (Nat.sqrt (10000 * d2)) else 2147483647

/-- `GameState::find_closest_monster`, as a function of the monster list:
the index of the first minimiser of `monsterKey` among live monsters
(`Iterator::min_by_key` keeps the first of equal keys); `none` exactly when
no live monster exists at all. -/
def find_closest_monster (monsters : List Entity) (x y max_range : Int) : Option Nat :=
  ((monsters.enum.filter (fun p => p.2.is_alive)).foldl
    (fun best p =>
      match best with
      | none => some p
      | some q =>
        if monsterKey p.2 x y max_range < monsterKey q.2 x y max_range then some p
        else some q)
    none).map (fun p => p.1)

/-- `Inventory::use_item`: returns the `Result` message together with the
updated inventory, user and monster list (the source mutates these through
`&mut` borrows). -/
def Inventory.use_item (self : Inventory) (index : Nat) (entity : Entity)
    (monsters : List Entity) : Except String String × Inventory × Entity × List Entity :=
  match self.items.get? index with
  | none => (Except.error "Invalid item index!", self, entity, monsters)
  | some item =>
    match item.item_type with
    | ItemType.Potion heal_amount =>
      let entity1 := { entity with stats :=
        { entity.stats with hp := min (entity.stats.hp + heal_amount) entity.stats.max_hp } }
      (Except.ok ("Used health potion! Healed for " ++ toString heal_amount ++ " HP"),
        { self with items := self.items.eraseIdx index }, entity1, monsters)
    | ItemType.Scroll eff =>
      match eff with
      | Effect.Lightning damage =>
        match find_closest_monster monsters entity.x entity.y 5 with
        | some i =>
          let monsters1 :=
            match monsters.get? i with
            | some mo =>
              monsters.set i { mo with stats := { mo.stats with hp := mo.stats.hp - damage } }
            | none => monsters
          (Except.ok ("Lightning bolt hits monster for " ++ toString damage ++ " damage!"),
            { self with items := self.items.eraseIdx index }, entity, monsters1)
        | none => (Except.error "No monster in range!", self, entity, monsters)
      | _ => (Except.error "Effect not implemented!", self, entity, monsters)
    | _ => (Except.error "This item cannot be used!", self, entity, monsters)

/-- C9: for every attacker and defender, the damage dealt by
`Entity::attack` is exactly `max(1, attack − defense)` — the defender's hp
drops by that amount — and this damage is at least 1 however negative
`attack − defense` is. -/
theorem c9_damage_at_least_one (a t : Entity) :
    ((Entity.attack a t).2.1).stats.hp
      = t.stats.hp - max (a.stats.attack - t.stats.defense) 1 ∧
    1 ≤ max (a.stats.attack - t.stats.defense) 1 := by
  constructor
  · rw [attack_target_eq]
  · exact le_max_right _ _

/-- C10: equipped items never affect combat: whatever inventories are
installed on the attacker and the defender, the defender's hp after
`Entity::attack` drops by exactly `max(1, base attack − base defense)`,
even though `get_total_attack` and `get_total_defense` report the base
stat plus the equipment bonus. -/
theorem c10_equipment_unused_in_combat (a t : Entity) (inva invt : Option Inventory) :
    ((Entity.attack { a with inventory := inva }
        { t with inventory := invt }).2.1).stats.hp
      = t.stats.hp - max (a.stats.attack - t.stats.defense) 1 ∧
    (∀ e : Entity, e.get_total_attack =
      e.stats.attack + ((e.inventory.map Inventory.get_equipment_bonuses).getD (0, 0)).1) ∧
    (∀ e : Entity, e.get_total_defense =
      e.stats.defense + ((e.inventory.map Inventory.get_equipment_bonuses).getD (0, 0)).2) := by
  refine ⟨?_, fun e => rfl, fun e => rfl⟩
  rw [attack_target_eq]

/-- A player standing at the origin, holding exactly one lightning scroll. -/
def c6player : Entity := { Entity.new_player with x := 0, y := 0 }

def c6inv : Inventory :=
  { items := [Item.new_lightning_scroll], capacity := 20, equipped_weapon := none,
    equipped_armor := none }

/-- A live monster 10 cells away — far beyond the lightning range of 5. -/
def c6monster : Entity := Entity.new_monster 10 0

/-- C6, evaluation at the failing input: with the only live monster 10
cells away (the effect's range is 5), `use_item` on the lightning scroll
returns `Ok`, consumes the scroll, and damages that out-of-range monster —
instead of reporting "No monster in range!" and keeping the scroll. The
cause: `find_closest_monster` gives out-of-range monsters the sentinel key
`i32::MAX` instead of filtering them out, and `min_by_key` still returns a
monster whenever any live monster exists. -/
theorem c6_out_of_range_strike :
    (5 : Int) ^ 2 < ((c6monster.x - c6player.x) ^ 2 + (c6monster.y - c6player.y) ^ 2) ∧
    (c6inv.use_item 0 c6player [c6monster]).1 =
      Except.ok "Lightning bolt hits monster for 20 damage!" ∧
    (c6inv.use_item 0 c6player [c6monster]).2.1.items = [] ∧
    (c6inv.use_item 0 c6player [c6monster]).2.2.2 =
      [{ c6monster with stats := { c6monster.stats with hp := -5 } }] :=
  ⟨by decide, rfl, rfl, rfl⟩

/-! ## The floor manager and game state -/

/-- Game configuration (map dimensions). -/
structure GameConfig where
  map_width : Nat
  map_height : Nat
  deriving DecidableEq, Repr

/-- The ambient stream handed to calls that provably ignore it
(`Map::new` never consults its `ambient` argument). -/
def defaultRng : Rng := ⟨fun _ => 0⟩

/-- Rust `i32 as usize`: sign-extend and reinterpret, i.e. wrap modulo
`2^64`; a negative index becomes astronomically large, so any subsequent
list access misses (as the Rust indexing would panic). -/
def usizeCast (i : Int) : Nat := (i % (2 ^ 64)).toNat

/-- The floor manager: every floor generated so far, the active floor
index, and the configuration. -/
structure MapManager where
  maps : List Map
  current_level : Int
  config : GameConfig
  deriving DecidableEq, Repr

/-- `MapManager::new`. -/
def MapManager.new (config : GameConfig) : MapManager :=
  { maps := [Map.new defaultRng config.map_width config.map_height 0 none],
    current_level := 0, config := config }

/-- `MapManager::current_map` (`none` models the indexing panic). -/
def MapManager.current_map (self : MapManager) : Option Map :=
  self.maps.get? (usizeCast self.current_level)

/-- `MapManager::change_level`. An invalid target (below 0 or at/beyond
the maximum depth of 10) is refused with no state change and no spawn
point. Otherwise the manager switches levels, lazily generating the
destination floor when its index was never generated (seeding the new
floor's up-stairs from the *source* floor's down-stairs when moving
deeper), and returns the spawn point read off the destination floor: its
up-stairs when descending, its down-stairs otherwise (as `f32` casts of
the stored cells). Rust panics (`unwrap` of a missing down-stairs on a
degenerate source floor, indexing past the lazily grown `maps`) are
embedded as `none`; a normal return is `some (spawn point?, manager')`. -/
def MapManager.change_level (self : MapManager) (new_level : Int) :
    Option (Option (Int × Int) × MapManager) :=
  if new_level < 0 ∨ 10 ≤ new_level then some (none, self)
  else
    let going_down := self.current_level < new_level
    let self1 : MapManager := { self with current_level := new_level }
    let gen? : Option MapManager :=
      if self1.maps.length ≤ usizeCast new_level then
        let sup? : Option (Option (Nat × Nat)) :=
          if going_down then
            match self1.maps.getLast? with
            | none => none
            | some last =>
              match last.down_stairs with
              | none => none
              | some p => some (some p)
          else some none
        sup?.map (fun sup =>
          { self1 with maps := self1.maps ++
              [Map.new defaultRng self.config.map_width self.config.map_height new_level sup] })
      else some self1
    gen?.bind (fun self2 =>
      match self2.maps.get? (usizeCast new_level) with
      | none => none
      | some dest =>
        some ((if going_down then dest.up_stairs else dest.down_stairs).map
          (fun p => (Int.ofNat p.1, Int.ofNat p.2)), self2))

/-- The persisted per-floor snapshot (`LevelState`). -/
structure LevelState where
  monsters : List Entity
  ground_items : List (Int × Int × Item)
  deriving DecidableEq, Repr

/-- The full mutable game state (rendering-only fields included as plain
data). -/
structure GameState where
  player : Entity
  monsters : List Entity
  combat_log : List String
  player_turn : Bool
  ground_items : List (Int × Int × Item)
  inventory_open : Bool
  map_manager : MapManager
  level_states : List LevelState
  deriving DecidableEq, Repr

/-- `GameState::save_current_level_state`: grow the snapshot store with
empty slots until it covers the current level, then overwrite that slot
with a copy of the live monster and ground-item lists. -/
def GameState.save_current_level_state (self : GameState) : GameState :=
  let current_level := usizeCast self.map_manager.current_level
  let blank : LevelState := { monsters := [], ground_items := [] }
  let padded := self.level_states ++
    List.replicate (current_level + 1 - self.level_states.length) blank
  let snapshot : LevelState := { monsters := self.monsters, ground_items := self.ground_items }
  { self with level_states := padded.set current_level snapshot }

/-- `GameState::load_level_state`: when a snapshot exists for `level`,
replace the live monster and ground-item lists wholesale with it;
otherwise do nothing. -/
def GameState.load_level_state (self : GameState) (level : Nat) : GameState :=
  match self.level_states.get? level with
  | none => self
  | some st => { self with monsters := st.monsters, ground_items := st.ground_items }

/-- `GameState::add_log_message`: append, dropping the oldest entry beyond
five. -/
def GameState.add_log_message (self : GameState) (message : String) : GameState :=
  let log := self.combat_log ++ [message]
  { self with combat_log := if 5 < log.length then log.drop 1 else log }

/-- `GameState::spawn_items_for_current_level`: clear the ground items
and, for every room of every row of the current floor, with probability
0.6 drop one item from the four-entry catalog at a random interior
position. `rng` models `thread_rng()`; `none` models the panic when the
current level index is out of range. -/
def GameState.spawn_items_for_current_level (self : GameState) (rng : Rng) :
    Option GameState :=
  (self.map_manager.current_map).map (fun map =>
    let step := fun (acc : List (Int × Int × Item) × Rng) (room : Room) =>
      let br := gen_bool acc.2 3 5
      if br.1 then
        let pr := room.random_position br.2
        let ir := gen_range pr.2 0 4
        let item :=
          if ir.1 = 0 then Item.new_sword
          else if ir.1 = 1 then Item.new_armor
          else if ir.1 = 2 then Item.new_health_potion
          else Item.new_lightning_scroll
        (acc.1 ++ [(pr.1.1, pr.1.2, item)], ir.2)
      else (acc.1, br.2)
    let res := map.rooms.foldl (fun a row => row.foldl step a) ([], rng)
    { self with ground_items := res.1 })

/-- `GameState::initialize_current_level`: move the player to the current
floor's first room center (when one exists), respawn 0–2 monsters per
room after the first of every row at random walkable interior cells, then
respawn ground items. `rng` models `thread_rng()`; `none` models the
panic when the current level index is out of range. -/
def GameState.initialize_current_level (self : GameState) (rng : Rng) :
    Option GameState :=
  match self.map_manager.current_map with
  | none => none
  | some map =>
    let s1 :=
      match map.rooms.head? with
      | some first_row =>
        match first_row.head? with
        | some first_room =>
          let c := first_room.center
          { self with player := { self.player with x := c.1, y := c.2 } }
        | none => self
      | none => self
    let roomStep := fun (acc : List Entity × Rng) (room : Room) =>
      let nr := gen_range acc.2 0 3
      (List.range nr.1.toNat).foldl
        (fun a _ =>
          let pr := room.random_position a.2
          if map.is_walkable pr.1.1 pr.1.2 then
            (a.1 ++ [Entity.new_monster pr.1.1 pr.1.2], pr.2)
          else (a.1, pr.2)) (acc.1, nr.2)
    let res := map.rooms.foldl (fun a row => (row.drop 1).foldl roomStep a) ([], rng)
    let s2 := { s1 with monsters := res.1 }
    s2.spawn_items_for_current_level res.2

/-- The `Tile::StairsDown` branch body of
`GameState::handle_level_transition` (descend key pressed while standing
on a down-stairs): snapshot the current floor, switch levels, place the
player on the returned spawn point, then populate the destination —
freshly when its snapshot slot never existed, else from its snapshot —
and log. Note `change_level`'s state changes stick even when it returns
no spawn point. `none` models panics reached inside the callees. -/
def GameState.descend (self : GameState) (rng : Rng) : Option GameState :=
  let s1 := self.save_current_level_state
  let next_level := s1.map_manager.current_level + 1
  let is_new_level := s1.level_states.length ≤ usizeCast next_level
  match s1.map_manager.change_level next_level with
  | none => none
  | some (none, mm) => some { s1 with map_manager := mm }
  | some (some p, mm) =>
    let s2 := { s1 with
      map_manager := mm
      player := { s1.player with x := p.1, y := p.2 } }
    let s3? := if is_new_level then s2.initialize_current_level rng
               else some (s2.load_level_state (usizeCast next_level))
    s3?.map (fun s3 =>
      s3.add_log_message ("Descended to level " ++ toString (next_level + 1)))

/-- The `Tile::StairsUp` branch body of
`GameState::handle_level_transition` (ascend key pressed while standing on
an up-stairs): snapshot, switch, place the player on the spawn point, and
always restore the destination's snapshot. -/
def GameState.ascend (self : GameState) : Option GameState :=
  let s1 := self.save_current_level_state
  let prev_level := s1.map_manager.current_level - 1
  match s1.map_manager.change_level prev_level with
  | none => none
  | some (none, mm) => some { s1 with map_manager := mm }
  | some (some p, mm) =>
    let s2 := { s1 with
      map_manager := mm
      player := { s1.player with x := p.1, y := p.2 } }
    let s3 := s2.load_level_state (usizeCast prev_level)
    some (s3.add_log_message ("Ascended to level " ++ toString (prev_level + 1)))

/-- C7: a transition request with a target below 0 or at/beyond the
maximum depth (10) returns no spawn point and leaves the manager — its
current level and its set of generated maps included — exactly as before
the call. -/
theorem c7_change_level_invalid (m : MapManager) (new_level : Int)
    (h : new_level < 0 ∨ 10 ≤ new_level) :
    m.change_level new_level = some (none, m) := by
  unfold MapManager.change_level
  rw [if_pos h]

/-- A small concrete floor and manager for witnesses. -/
def demoMap : Map :=
  { width := 8, height := 8, tiles := wallGrid 8 8, rooms := [], level := 0,
    up_stairs := none, down_stairs := some (4, 4) }

def demoManager : MapManager :=
  { maps := [demoMap], current_level := 0, config := { map_width := 8, map_height := 8 } }

theorem c7_change_level_invalid_witness :
    ((10 : Int) < 0 ∨ 10 ≤ (10 : Int)) ∧
    demoManager.change_level 10 = some (none, demoManager) :=
  ⟨Or.inr (by norm_num), c7_change_level_invalid demoManager 10 (Or.inr (by norm_num))⟩

lemma save_get_self (gs : GameState) :
    (gs.save_current_level_state).level_states.get?
        (usizeCast gs.map_manager.current_level)
      = some { monsters := gs.monsters, ground_items := gs.ground_items } := by
  unfold GameState.save_current_level_state
  apply List.get?_set_eq_of_lt
  simp only [List.length_append, List.length_replicate]
  omega

/-- C2: the floor round trip. Departing a floor snapshots the live monster
and ground-item lists (`save_current_level_state` runs at every
transition, before switching). If a later state `s'` still carries that
snapshot slot untouched — no intervening visit to the floor wrote it —
then re-entering through `load_level_state` makes the live lists exactly
the departure lists again, wholesale: whatever live monsters or items `s'`
carried from elsewhere are replaced, never merged. -/
theorem c2_floor_state_round_trip (gs s' : GameState)
    (hkeep : s'.level_states.get? (usizeCast gs.map_manager.current_level)
           = (gs.save_current_level_state).level_states.get?
               (usizeCast gs.map_manager.current_level)) :
    (s'.load_level_state (usizeCast gs.map_manager.current_level)).monsters
        = gs.monsters ∧
    (s'.load_level_state (usizeCast gs.map_manager.current_level)).ground_items
        = gs.ground_items := by
  rw [save_get_self] at hkeep
  unfold GameState.load_level_state
  rw [hkeep]
  exact ⟨rfl, rfl⟩

/-- A concrete departure state for the C2 witness: one monster and one
dropped sword live on floor 0. -/
def c2demo : GameState :=
  { player := Entity.new_player, monsters := [Entity.new_monster 3 3], combat_log := [],
    player_turn := true, ground_items := [(2, 2, Item.new_sword)], inventory_open := false,
    map_manager := demoManager, level_states := [] }

/-- A state reached later, away from floor 0: the snapshot slot is intact
while the live lists hold another floor's contents. -/
def c2mid : GameState :=
  { c2demo.save_current_level_state with monsters := [], ground_items := [] }

theorem c2_floor_state_round_trip_witness :
    (c2mid.level_states.get? (usizeCast c2demo.map_manager.current_level)
      = (c2demo.save_current_level_state).level_states.get?
          (usizeCast c2demo.map_manager.current_level)) ∧
    (c2mid.load_level_state (usizeCast c2demo.map_manager.current_level)).monsters
        = c2demo.monsters ∧
    (c2mid.load_level_state (usizeCast c2demo.map_manager.current_level)).ground_items
        = c2demo.ground_items :=
  ⟨rfl, (c2_floor_state_round_trip c2demo c2mid rfl).1,
    (c2_floor_state_round_trip c2demo c2mid rfl).2⟩

lemma save_mapmanager (gs : GameState) :
    (gs.save_current_level_state).map_manager = gs.map_manager := rfl

lemma load_player (s : GameState) (l : Nat) :
    (s.load_level_state l).player = s.player := by
  unfold GameState.load_level_state
  split <;> rfl

lemma add_log_player (s : GameState) (msg : String) :
    (s.add_log_message msg).player = s.player := rfl

lemma spawn_items_player (s t : GameState) (rng : Rng)
    (h : s.spawn_items_for_current_level rng = some t) : t.player = s.player := by
  unfold GameState.spawn_items_for_current_level at h
  cases hm : s.map_manager.current_map with
  | none => rw [hm] at h; simp at h
  | some map =>
    rw [hm] at h
    simp only [Option.map_some'] at h
    rw [Option.some_inj] at h
    rw [← h]

lemma change_level_spawn_eq (m : MapManager) (new_level : Int) (p : Int × Int)
    (m' : MapManager) (h : m.change_level new_level = some (some p, m')) :
    ∃ dest, m'.maps.get? (usizeCast new_level) = some dest ∧
      (if m.current_level < new_level then dest.up_stairs else dest.down_stairs).map
        (fun q => (Int.ofNat q.1, Int.ofNat q.2)) = some p := by
  unfold MapManager.change_level at h
  by_cases hv : new_level < 0 ∨ 10 ≤ new_level
  · rw [if_pos hv] at h
    simp at h
  · rw [if_neg hv] at h
    simp only [Option.bind_eq_bind] at h
    cases hg : (if ({ m with current_level := new_level } : MapManager).maps.length ≤
          usizeCast new_level then
        (if m.current_level < new_level then
            match ({ m with current_level := new_level } : MapManager).maps.getLast? with
            | none => none
            | some last =>
              match last.down_stairs with
              | none => none
              | some p => some (some p)
          else some none).map (fun sup =>
          { ({ m with current_level := new_level } : MapManager) with
              maps := ({ m with current_level := new_level } : MapManager).maps ++
                [Map.new defaultRng m.config.map_width m.config.map_height new_level sup] })
      else some ({ m with current_level := new_level } : MapManager)) with
    | none => rw [hg] at h; simp at h
    | some self2 =>
      rw [hg] at h
      simp only [Option.some_bind] at h
      cases hd : self2.maps.get? (usizeCast new_level) with
      | none => rw [hd] at h; simp at h
      | some dest =>
        rw [hd] at h
        simp only [Option.some_inj, Prod.mk.injEq] at h
        refine ⟨dest, ?_, ?_⟩
        · rw [← h.2, hd]
        · rw [h.1]

lemma initialize_player (s t : GameState) (rng : Rng) (dmap : Map) (row : List Room)
    (room : Room) (hm : s.map_manager.current_map = some dmap)
    (hrow : dmap.rooms.head? = some row) (hroom : row.head? = some room)
    (h : s.initialize_current_level rng = some t) :
    (t.player.x, t.player.y) = room.center := by
  unfold GameState.initialize_current_level at h
  rw [hm] at h
  simp only [hrow, hroom] at h
  have hp := spawn_items_player _ _ _ h
  rw [hp]

lemma ascend_player (gs : GameState) (p : Int × Int) (mm : MapManager) (gs' : GameState)
    (hchg : gs.map_manager.change_level (gs.map_manager.current_level - 1)
      = some (some p, mm))
    (hasc : gs.ascend = some gs') : (gs'.player.x, gs'.player.y) = p := by
  simp only [GameState.ascend] at hasc
  rw [save_mapmanager] at hasc
  rw [hchg] at hasc
  simp only [Option.some_inj] at hasc
  rw [← hasc, add_log_player, load_player]

lemma descend_player_revisit (gs : GameState) (rng : Rng) (p : Int × Int)
    (mm : MapManager) (gs' : GameState)
    (hchg : gs.map_manager.change_level (gs.map_manager.current_level + 1)
      = some (some p, mm))
    (hold : usizeCast (gs.map_manager.current_level + 1) <
      (gs.save_current_level_state).level_states.length)
    (hdesc : gs.descend rng = some gs') : (gs'.player.x, gs'.player.y) = p := by
  simp only [GameState.descend] at hdesc
  rw [save_mapmanager] at hdesc
  rw [hchg] at hdesc
  dsimp only at hdesc
  rw [if_neg (not_le.mpr hold)] at hdesc
  simp only [Option.map_some', Option.some_inj] at hdesc
  rw [← hdesc, add_log_player, load_player]

lemma descend_player_first_visit (gs : GameState) (rng : Rng) (p : Int × Int)
    (mm : MapManager) (gs' : GameState) (dmap : Map) (row : List Room) (room : Room)
    (hchg : gs.map_manager.change_level (gs.map_manager.current_level + 1)
      = some (some p, mm))
    (hnew : (gs.save_current_level_state).level_states.length ≤
      usizeCast (gs.map_manager.current_level + 1))
    (hmap : mm.current_map = some dmap)
    (hrow : dmap.rooms.head? = some row) (hroom : row.head? = some room)
    (hdesc : gs.descend rng = some gs') : (gs'.player.x, gs'.player.y) = room.center := by
  simp only [GameState.descend] at hdesc
  rw [save_mapmanager] at hdesc
  rw [hchg] at hdesc
  dsimp only at hdesc
  rw [if_pos hnew] at hdesc
  cases hi : GameState.initialize_current_level
      { gs.save_current_level_state with
        map_manager := mm
        player := { (gs.save_current_level_state).player with x := p.1, y := p.2 } } rng with
  | none => rw [hi] at hdesc; simp at hdesc
  | some t =>
    rw [hi] at hdesc
    simp only [Option.map_some', Option.some_inj] at hdesc
    have hcen := initialize_player _ t rng dmap row room hmap hrow hroom hi
    rw [← hdesc, add_log_player]
    exact hcen

/-- Source floor for the C4 counterexample: floor 0 with its down-stairs at
`(2, 2)`, the player standing on it, no floor-1 snapshot yet. -/
def c4map0 : Map :=
  { width := 30, height := 30, tiles := setTile (wallGrid 30 30) 2 2 Tile.StairsDown,
    rooms := [], level := 0, up_stairs := none, down_stairs := some (2, 2) }

def c4manager : MapManager :=
  { maps := [c4map0], current_level := 0, config := { map_width := 30, map_height := 30 } }

def c4state : GameState :=
  { player := { Entity.new_player with x := 2, y := 2 }, monsters := [], combat_log := [],
    player_turn := true, ground_items := [], inventory_open := false,
    map_manager := c4manager, level_states := [] }

/-- C4, counterexample: a first-time descent from `c4state`. The
`change_level` call succeeds and returns the destination floor's up-stairs
`(2, 2)` (inherited from the source floor's down-stairs), yet the player
does not end on it: `initialize_current_level` afterwards moves the player
to the center `(6, 12)` of the freshly generated floor's first room. -/
theorem c4_counterexample :
    ((c4state.save_current_level_state).map_manager.change_level
        (c4state.map_manager.current_level + 1)).map (fun r => r.1)
      = some (some ((2 : Int), (2 : Int))) ∧
    c4state.map_manager.current_level < c4state.map_manager.current_level + 1 ∧
    (c4state.descend defaultRng).map (fun g => (g.player.x, g.player.y))
      = some ((6 : Int), (12 : Int)) ∧
    ((6 : Int), (12 : Int)) ≠ ((2 : Int), (2 : Int)) :=
  ⟨by decide, by decide, by decide, by decide⟩

/-- C4, amended: after a successful transition, `change_level`'s returned
spawn point is the destination floor's up-stairs when descending and its
down-stairs when ascending (also on a first visit, whose freshly generated
floor inherits its up-stairs from the source floor's down-stairs); the
player lands exactly on that spawn point on every ascent and on every
descent to a previously visited floor — but on the first visit to a
freshly generated floor, `initialize_current_level` subsequently moves the
player to the center of the first room of the destination's first row. -/
theorem c4_amended :
    (∀ (m : MapManager) (new_level : Int) (p : Int × Int) (m' : MapManager),
      m.current_level < new_level →
      m.change_level new_level = some (some p, m') →
      ∃ dest, m'.maps.get? (usizeCast new_level) = some dest ∧
        dest.up_stairs.map (fun q => (Int.ofNat q.1, Int.ofNat q.2)) = some p) ∧
    (∀ (m : MapManager) (new_level : Int) (p : Int × Int) (m' : MapManager),
      ¬ m.current_level < new_level →
      m.change_level new_level = some (some p, m') →
      ∃ dest, m'.maps.get? (usizeCast new_level) = some dest ∧
        dest.down_stairs.map (fun q => (Int.ofNat q.1, Int.ofNat q.2)) = some p) ∧
    (∀ (gs : GameState) (p : Int × Int) (mm : MapManager) (gs' : GameState),
      gs.map_manager.change_level (gs.map_manager.current_level - 1)
        = some (some p, mm) →
      gs.ascend = some gs' → (gs'.player.x, gs'.player.y) = p) ∧
    (∀ (gs : GameState) (rng : Rng) (p : Int × Int) (mm : MapManager) (gs' : GameState),
      gs.map_manager.change_level (gs.map_manager.current_level + 1)
        = some (some p, mm) →
      usizeCast (gs.map_manager.current_level + 1) <
        (gs.save_current_level_state).level_states.length →
      gs.descend rng = some gs' → (gs'.player.x, gs'.player.y) = p) ∧
    (∀ (gs : GameState) (rng : Rng) (p : Int × Int) (mm : MapManager) (gs' : GameState)
        (dmap : Map) (row : List Room) (room : Room),
      gs.map_manager.change_level (gs.map_manager.current_level + 1)
        = some (some p, mm) →
      (gs.save_current_level_state).level_states.length ≤
        usizeCast (gs.map_manager.current_level + 1) →
      mm.current_map = some dmap → dmap.rooms.head? = some row →
      row.head? = some room →
      gs.descend rng = some gs' → (gs'.player.x, gs'.player.y) = room.center) := by
  refine ⟨?_, ?_, ?_, ?_, ?_⟩
  · intro m new_level p m' hlt h
    obtain ⟨dest, hd, hs⟩ := change_level_spawn_eq m new_level p m' h
    rw [if_pos hlt] at hs
    exact ⟨dest, hd, hs⟩
  · intro m new_level p m' hlt h
    obtain ⟨dest, hd, hs⟩ := change_level_spawn_eq m new_level p m' h
    rw [if_neg hlt] at hs
    exact ⟨dest, hd, hs⟩
  · intro gs p mm gs' hchg hasc
    exact ascend_player gs p mm gs' hchg hasc
  · intro gs rng p mm gs' hchg hold hdesc
    exact descend_player_revisit gs rng p mm gs' hchg hold hdesc
  · intro gs rng p mm gs' dmap row room hchg hnew hmap hrow hroom hdesc
    exact descend_player_first_visit gs rng p mm gs' dmap row room hchg hnew hmap hrow
      hroom hdesc

/-- Destination floor for the C4 witness (an ascent back to `demoMap`). -/
def c4wmap1 : Map :=
  { width := 8, height := 8, tiles := wallGrid 8 8, rooms := [], level := 1,
    up_stairs := some (2, 2), down_stairs := none }

def c4wmanager : MapManager :=
  { maps := [demoMap, c4wmap1], current_level := 1,
    config := { map_width := 8, map_height := 8 } }

def c4wstate : GameState :=
  { player := { Entity.new_player with x := 2, y := 2 }, monsters := [], combat_log := [],
    player_turn := true, ground_items := [], inventory_open := false,
    map_manager := c4wmanager, level_states := [] }

def c4wmanager2 : MapManager := { c4wmanager with current_level := 0 }

def c4wafter : GameState := (c4wstate.ascend).getD c4wstate

theorem c4_amended_witness :
    c4wstate.map_manager.change_level (c4wstate.map_manager.current_level - 1)
        = some (some (4, 4), c4wmanager2) ∧
    c4wstate.ascend = some c4wafter ∧
    (c4wafter.player.x, c4wafter.player.y) = (4, 4) :=
  ⟨by decide, by decide,
    c4_amended.2.2.1 c4wstate (4, 4) c4wmanager2 c4wafter (by decide) (by decide)⟩

/-! ## The pathfinder

`Map::find_path` is an A* search over the tile grid. The embedding refines
the two behaviours the Rust types leave unspecified, in both cases to the
earliest candidate: `BinaryHeap` pops *some* node of minimal `f_cost`
(`Node`'s `Ord` compares only `f_cost`, reversed) — here the first such
node in insertion order; and `HashSet` iteration visits entries in *some*
order — here insertion order, so `find` returns the earliest matching
entry. The search loop is embedded with an explicit fuel that the
development proves sufficient (`searchLoop` never exhausts it), mirroring
the source's unbounded `while let` loop. -/

/-- `manhattan_distance`. -/
def manhattan_distance (a b : Int × Int) : Int :=
  |a.1 - b.1| + |a.2 - b.2|

/-- An A* search node. -/
structure Node where
  position : Int × Int
  g_cost : Int
  f_cost : Int
  parent : Option (Int × Int)
  deriving DecidableEq, Repr

/-- The binary heap's pop: the first node of minimal `f_cost`, together
with the remaining nodes. -/
def popMinFCost : List Node → Option (Node × List Node)
  | [] => none
  | n :: rest =>
    match popMinFCost rest with
    | none => some (n, [])
    | some (m, rest') =>
      if n.f_cost ≤ m.f_cost then some (n, rest) else some (m, n :: rest')

/-- `HashSet::insert`: a no-op on an already-present value, else appended
(iteration order refined to insertion order). -/
def insertClosed (closed : List Node) (cur : Node) : List Node :=
  if cur ∈ closed then closed else closed ++ [cur]

/-- `closed_set.iter().find(|n| n.position == q)`: the earliest entry at a
position. -/
def firstEntry? (closed : List Node) (q : Int × Int) : Option Node :=
  closed.find? (fun n => decide (n.position = q))

/-- The neighbour offsets, in the source's iteration order. -/
def nbrDeltas : List (Int × Int) := [(0, 1), (1, 0), (0, -1), (-1, 0)]

/-- The nodes pushed while expanding `cur`: every walkable neighbour whose
position no closed entry occupies, with `g` one step further and `f` the
g-cost plus the Manhattan heuristic, parented at `cur`. -/
def pushList (m : Map) (goal : Int × Int) (cur : Node) (closed : List Node) : List Node :=
  (nbrDeltas.map (fun d => (cur.position.1 + d.1, cur.position.2 + d.2))).filterMap
    (fun np =>
      if m.is_walkable np.1 np.2 = true ∧ ¬ (closed.any (fun n => decide (n.position = np)) = true)
      then some { position := np, g_cost := cur.g_cost + 1,
                  f_cost := cur.g_cost + 1 + manhattan_distance np goal,
                  parent := some cur.position }
      else none)

/-- The parent-chain walk of the source's path reconstruction, goal end
first: push the node's position, then follow the earliest closed entry of
its parent (stopping, like the source, when there is no parent or no such
entry). The fuel dominates the chain length in every verified run; the
exhausted case would be a diverging Rust loop on a cyclic chain, which the
invariants below exclude. -/
def reconChain (closed : List Node) : Nat → Node → List (Int × Int)
  | 0, node => [node.position]
  | fuel + 1, node =>
    node.position ::
      (match node.parent with
       | none => []
       | some pp =>
         match firstEntry? closed pp with
         | none => []
         | some pn => reconChain closed fuel pn)

/-- Path reconstruction: the parent chain, reversed to run start → goal. -/
def reconstructPath (closed : List Node) (cur : Node) : List (Int × Int) :=
  (reconChain closed (closed.length + 1) cur).reverse

/-- The A* main loop: pop a minimal-`f` node; an empty heap means no path;
a popped goal is reconstructed; otherwise the node is closed and its
neighbours pushed. `none` reports exhausted fuel (proven unreachable from
the initial state). -/
def searchLoop (m : Map) (goal : Int × Int) :
    Nat → List Node → List Node → Option (Option (List (Int × Int)))
  | 0, _, _ => none
  | fuel + 1, open_nodes, closed =>
    match popMinFCost open_nodes with
    | none => some none
    | some (cur, rest) =>
      if cur.position = goal then some (some (reconstructPath closed cur))
      else searchLoop m goal fuel (rest ++ pushList m goal cur closed)
        (insertClosed closed cur)

/-- Fuel dominating the loop's step count (established by the potential
argument below). -/
def searchFuel (m : Map) : Nat := 5 ^ (m.width * m.height + 3)

/-- `Map::find_path`. -/
def Map.find_path (self : Map) (start goal : Int × Int) :
    Option (List (Int × Int)) :=
  let start_node : Node :=
    { position := start, g_cost := 0, f_cost := manhattan_distance start goal,
      parent := none }
  match searchLoop self goal (searchFuel self) [start_node] [] with
  | some r => r
  | none => none

/-! ### Walks on the grid -/

/-- A legal 4-directional walk of `n` steps from `p` to `r` on `m`: each
step moves by one of the four unit offsets onto a walkable cell. (The
starting cell itself need not be walkable — the search expands the start
unconditionally, exactly as the source does.) -/
inductive GWalk (m : Map) : (Int × Int) → (Int × Int) → Nat → Prop
  | nil (p : Int × Int) : GWalk m p p 0
  | cons {p q r : Int × Int} {n : Nat}
      (hd : ∃ d ∈ nbrDeltas, q = (p.1 + d.1, p.2 + d.2))
      (hw : m.is_walkable q.1 q.2 = true)
      (tail : GWalk m q r n) : GWalk m p r (n + 1)

lemma GWalk.append {m : Map} {p q : Int × Int} {a : Nat} (h1 : GWalk m p q a) :
    ∀ {r : Int × Int} {b : Nat}, GWalk m q r b → GWalk m p r (a + b) := by
  induction h1 with
  | nil _ =>
    intro r b h2
    rw [Nat.zero_add]
    exact h2
  | cons hd hw _ ih =>
    intro r b h2
    rw [Nat.succ_add]
    exact GWalk.cons hd hw (ih h2)

lemma GWalk.snoc {m : Map} {p q r : Int × Int} {a : Nat}
    (h : GWalk m p q a) (hd : ∃ d ∈ nbrDeltas, r = (q.1 + d.1, q.2 + d.2))
    (hw : m.is_walkable r.1 r.2 = true) : GWalk m p r (a + 1) :=
  h.append (GWalk.cons hd hw (GWalk.nil r))

lemma abs_le_abs_add_abs_right (a b : Int) : |a| ≤ |a + b| + |b| := by
  have h := abs_add (a + b) (-b)
  rw [abs_neg] at h
  have e : a + b + -b = a := by ring
  rw [e] at h
  exact h

/-- One grid step changes the Manhattan heuristic by at most one. -/
lemma manhattan_step_le (p q g : Int × Int)
    (hd : ∃ d ∈ nbrDeltas, q = (p.1 + d.1, p.2 + d.2)) :
    manhattan_distance p g ≤ 1 + manhattan_distance q g := by
  obtain ⟨d, hdm, hq⟩ := hd
  subst hq
  have h1 : |p.1 - g.1| ≤ |p.1 + d.1 - g.1| + |d.1| := by
    have h := abs_le_abs_add_abs_right (p.1 - g.1) d.1
    have e : p.1 - g.1 + d.1 = p.1 + d.1 - g.1 := by ring
    rw [e] at h
    exact h
  have h2 : |p.2 - g.2| ≤ |p.2 + d.2 - g.2| + |d.2| := by
    have h := abs_le_abs_add_abs_right (p.2 - g.2) d.2
    have e : p.2 - g.2 + d.2 = p.2 + d.2 - g.2 := by ring
    rw [e] at h
    exact h
  have hsum : |d.1| + |d.2| = 1 := by
    simp only [nbrDeltas, List.mem_cons, List.not_mem_nil, or_false] at hdm
    rcases hdm with rfl | rfl | rfl | rfl <;> decide
  unfold manhattan_distance
  dsimp only
  linarith

/-- Manhattan consistency along a walk: the heuristic at the walk's origin
is at most its length plus the heuristic at its end. -/
lemma manhattan_le_walk {m : Map} {p r : Int × Int} {n : Nat} (g : Int × Int)
    (h : GWalk m p r n) :
    manhattan_distance p g ≤ (n : Int) + manhattan_distance r g := by
  induction h with
  | nil _ => simp
  | cons hd _ _ ih =>
    have hstep := manhattan_step_le _ _ g hd
    push_cast
    linarith

/-- A returned path: runs from `start` to `goal` through unit grid steps,
every cell after the first walkable. -/
def IsPathList (m : Map) (start goal : Int × Int) (l : List (Int × Int)) : Prop :=
  l.head? = some start ∧ l.getLast? = some goal ∧
  l.Chain' (fun p q => ∃ d ∈ nbrDeltas, q = (p.1 + d.1, p.2 + d.2)) ∧
  ∀ p ∈ l.tail, m.is_walkable p.1 p.2 = true

/-! ### Heap and closed-set lemmas -/

lemma popMinFCost_none (l : List Node) : popMinFCost l = none ↔ l = [] := by
  cases l with
  | nil => simp [popMinFCost]
  | cons n rest =>
    constructor
    · intro h
      exfalso
      simp only [popMinFCost] at h
      cases htl : popMinFCost rest with
      | none => rw [htl] at h; exact Option.noConfusion h
      | some pr =>
        obtain ⟨mn, rest'⟩ := pr
        rw [htl] at h
        dsimp only at h
        split at h <;> exact Option.noConfusion h
    · intro h
      exact absurd h (List.cons_ne_nil n rest)

lemma popMinFCost_spec (l : List Node) (cur : Node) (rest : List Node)
    (h : popMinFCost l = some (cur, rest)) :
    l.Perm (cur :: rest) ∧ ∀ n ∈ l, cur.f_cost ≤ n.f_cost := by
  induction l generalizing cur rest with
  | nil => simp [popMinFCost] at h
  | cons a tl ih =>
    simp only [popMinFCost] at h
    cases htl : popMinFCost tl with
    | none =>
      rw [htl] at h
      have he : tl = [] := (popMinFCost_none tl).mp htl
      subst he
      dsimp only at h
      simp only [Option.some_inj, Prod.mk.injEq] at h
      obtain ⟨rfl, rfl⟩ := h
      exact ⟨List.Perm.refl _, by simp⟩
    | some pr =>
      obtain ⟨mn, rest'⟩ := pr
      rw [htl] at h
      dsimp only at h
      obtain ⟨hperm, hmin⟩ := ih mn rest' htl
      by_cases hle : a.f_cost ≤ mn.f_cost
      · rw [if_pos hle] at h
        simp only [Option.some_inj, Prod.mk.injEq] at h
        obtain ⟨rfl, rfl⟩ := h
        refine ⟨List.Perm.refl _, ?_⟩
        intro n hn
        rcases List.mem_cons.mp hn with rfl | hn
        · exact le_refl _
        · exact le_trans hle (hmin n hn)
      · rw [if_neg hle] at h
        simp only [Option.some_inj, Prod.mk.injEq] at h
        obtain ⟨rfl, rfl⟩ := h
        constructor
        · exact List.Perm.trans (hperm.cons a) (List.Perm.swap mn a rest')
        · intro n hn
          rcases List.mem_cons.mp hn with rfl | hn
          · exact le_of_not_le hle
          · exact hmin n hn

lemma mem_insertClosed (closed : List Node) (cur n : Node) :
    n ∈ insertClosed closed cur ↔ n ∈ closed ∨ n = cur := by
  unfold insertClosed
  split
  · rename_i hin
    constructor
    · exact Or.inl
    · intro h
      rcases h with h | rfl
      · exact h
      · exact hin
  · simp

lemma firstEntry?_position (closed : List Node) (q : Int × Int) (e : Node)
    (h : firstEntry? closed q = some e) : e.position = q := by
  have := List.find?_some h
  simpa using this

lemma firstEntry?_mem (closed : List Node) (q : Int × Int) (e : Node)
    (h : firstEntry? closed q = some e) : e ∈ closed :=
  List.mem_of_find?_eq_some h

lemma firstEntry?_eq_none_iff (closed : List Node) (q : Int × Int) :
    firstEntry? closed q = none ↔ ∀ n ∈ closed, n.position ≠ q := by
  unfold firstEntry?
  rw [List.find?_eq_none]
  constructor
  · intro h n hn
    have := h n hn
    simpa using this
  · intro h n hn
    simpa using h n hn

lemma firstEntry?_insertClosed (closed : List Node) (cur : Node) (q : Int × Int) :
    firstEntry? (insertClosed closed cur) q =
      if (firstEntry? closed q).isSome then firstEntry? closed q
      else if q = cur.position then some cur else none := by
  unfold insertClosed
  split
  · rename_i hin
    cases hfe : firstEntry? closed q with
    | some e => simp [hfe]
    | none =>
      have hne := (firstEntry?_eq_none_iff closed q).mp hfe
      have hcne : cur.position ≠ q := hne cur hin
      simp only [Option.isSome_none, Bool.false_eq_true, if_false]
      rw [if_neg (fun he => hcne he.symm)]
  · unfold firstEntry?
    rw [List.find?_append]
    cases hfe : List.find? (fun n => decide (n.position = q)) closed with
    | some e => simp [hfe, firstEntry?]
    | none =>
      simp only [hfe, Option.none_orElse, firstEntry?, Option.isSome_none,
        Bool.false_eq_true, if_false]
      by_cases hq : q = cur.position
      · subst hq
        simp [List.find?]
      · simp only [List.find?]
        rw [decide_eq_false (fun he => hq he.symm)]
        rw [if_neg hq]
        rfl

/-! ### Counting closed positions and the loop potential -/

/-- The number of distinct closed positions. -/
def dCount (closed : List Node) : Nat := (closed.map Node.position).toFinset.card

lemma mem_posList (closed : List Node) (p : Int × Int) :
    p ∈ (closed.map Node.position).toFinset ↔ ∃ n ∈ closed, n.position = p := by
  simp [List.mem_toFinset]

lemma firstEntry?_isSome_iff (closed : List Node) (q : Int × Int) :
    (firstEntry? closed q).isSome = true ↔ ∃ n ∈ closed, n.position = q := by
  unfold firstEntry?
  rw [List.find?_isSome]
  constructor
  · rintro ⟨n, hn, h⟩
    exact ⟨n, hn, by simpa using h⟩
  · rintro ⟨n, hn, h⟩
    exact ⟨n, hn, by simpa using h⟩

lemma any_position_iff (closed : List Node) (np : Int × Int) :
    (closed.any (fun n => decide (n.position = np)) = true) ↔
      (firstEntry? closed np).isSome = true := by
  rw [List.any_eq_true, firstEntry?_isSome_iff]
  constructor <;> rintro ⟨n, hn, h⟩ <;> exact ⟨n, hn, by simpa using h⟩

lemma dCount_insertClosed (closed : List Node) (cur : Node) :
    dCount (insertClosed closed cur) =
      if (firstEntry? closed cur.position).isSome then dCount closed
      else dCount closed + 1 := by
  unfold insertClosed dCount
  split
  · rename_i hin
    rw [if_pos ((firstEntry?_isSome_iff _ _).mpr ⟨cur, hin, rfl⟩)]
  · rw [List.map_append, List.toFinset_append]
    simp only [List.map_cons, List.map_nil, List.toFinset_cons, List.toFinset_nil,
      insert_emptyc_eq]
    by_cases hs : (firstEntry? closed cur.position).isSome = true
    · rw [if_pos hs]
      have hmem : cur.position ∈ (closed.map Node.position).toFinset := by
        rw [mem_posList]
        exact (firstEntry?_isSome_iff _ _).mp hs
      rw [Finset.union_comm, Finset.union_eq_right.mpr (by simpa using hmem)]
    · rw [if_neg hs]
      have hmem : cur.position ∉ (closed.map Node.position).toFinset := by
        rw [mem_posList]
        intro hc
        exact hs ((firstEntry?_isSome_iff _ _).mpr hc)
      rw [Finset.union_comm]
      simpa using Finset.card_insert_of_not_mem hmem

/-- Every position the search can ever close: the start plus the walkable
cells. -/
def posFinset (m : Map) (start : Int × Int) : Finset (Int × Int) :=
  insert start ((Finset.range m.width ×ˢ Finset.range m.height).image
    (fun ab => ((ab.1 : Int), (ab.2 : Int))))

lemma posFinset_card (m : Map) (start : Int × Int) :
    (posFinset m start).card ≤ m.width * m.height + 1 := by
  unfold posFinset
  apply le_trans (Finset.card_insert_le _ _)
  have h1 := Finset.card_image_le (s := Finset.range m.width ×ˢ Finset.range m.height)
    (f := fun ab => ((ab.1 : Int), (ab.2 : Int)))
  rw [Finset.card_product] at h1
  simpa using h1

lemma walkable_mem_posFinset (m : Map) (start p : Int × Int)
    (h : m.is_walkable p.1 p.2 = true) : p ∈ posFinset m start := by
  unfold Map.is_walkable at h
  split at h
  · exact absurd h Bool.false_ne_true
  · rename_i hcond
    simp only [Bool.or_eq_true, decide_eq_true_eq, not_or, Int.ofNat_eq_coe] at hcond
    apply Finset.mem_insert_of_mem
    apply Finset.mem_image.mpr
    refine ⟨(p.1.toNat, p.2.toNat), ?_, ?_⟩
    · rw [Finset.mem_product]
      refine ⟨Finset.mem_range.mpr ?_, Finset.mem_range.mpr ?_⟩
      · show p.1.toNat < m.width
        omega
      · show p.2.toNat < m.height
        omega
    · show ((p.1.toNat : Int), (p.2.toNat : Int)) = p
      have e1 : ((p.1.toNat : Int)) = p.1 := Int.toNat_of_nonneg (by omega)
      have e2 : ((p.2.toNat : Int)) = p.2 := Int.toNat_of_nonneg (by omega)
      rw [e1, e2]

lemma dCount_le (m : Map) (start : Int × Int) (closed : List Node)
    (hpos : ∀ e ∈ closed, e.position = start ∨
      m.is_walkable e.position.1 e.position.2 = true) :
    dCount closed ≤ m.width * m.height + 1 := by
  apply le_trans (Finset.card_le_card ?_) (posFinset_card m start)
  intro p hp
  rw [mem_posList] at hp
  obtain ⟨n, hn, rfl⟩ := hp
  rcases hpos n hn with h | h
  · rw [h]
    exact Finset.mem_insert_self _ _
  · exact walkable_mem_posFinset m start _ h

/-- The potential of one open node: exponentially weighted by how far its
`g` is below the cap `K`. -/
def nodePhi (K : Nat) (n : Node) : Nat := 5 ^ (K - n.g_cost.toNat)

/-- The loop potential: total over the open heap. -/
def phiSum (K : Nat) (l : List Node) : Nat := (l.map (nodePhi K)).sum

lemma phiSum_perm (K : Nat) {l1 l2 : List Node} (h : l1.Perm l2) :
    phiSum K l1 = phiSum K l2 :=
  List.Perm.sum_eq (h.map _)

lemma phiSum_append (K : Nat) (l1 l2 : List Node) :
    phiSum K (l1 ++ l2) = phiSum K l1 + phiSum K l2 := by
  simp [phiSum]

lemma pushList_length_le (m : Map) (goal : Int × Int) (cur : Node)
    (closed : List Node) : (pushList m goal cur closed).length ≤ 4 := by
  unfold pushList
  apply le_trans (List.length_filterMap_le _ _)
  simp [nbrDeltas]

lemma mem_pushList (m : Map) (goal : Int × Int) (cur : Node) (closed : List Node)
    (n : Node) :
    n ∈ pushList m goal cur closed ↔
      ∃ np, (∃ d ∈ nbrDeltas, np = (cur.position.1 + d.1, cur.position.2 + d.2)) ∧
        m.is_walkable np.1 np.2 = true ∧ firstEntry? closed np = none ∧
        n = { position := np, g_cost := cur.g_cost + 1,
              f_cost := cur.g_cost + 1 + manhattan_distance np goal,
              parent := some cur.position } := by
  unfold pushList
  rw [List.mem_filterMap]
  constructor
  · rintro ⟨np, hmem, hf⟩
    rw [List.mem_map] at hmem
    obtain ⟨d, hd, rfl⟩ := hmem
    split at hf
    · rename_i hcond
      simp only [Option.some_inj] at hf
      refine ⟨_, ⟨d, hd, rfl⟩, hcond.1, ?_, hf.symm⟩
      rw [← Option.not_isSome_iff_eq_none]
      intro hsome
      exact hcond.2 ((any_position_iff _ _).mpr hsome)
    · exact absurd hf (fun he => Option.noConfusion he)
  · rintro ⟨np, ⟨d, hd, hnp⟩, hw, hfe, rfl⟩
    subst hnp
    refine ⟨_, List.mem_map.mpr ⟨d, hd, rfl⟩, ?_⟩
    have hcond : m.is_walkable (cur.position.1 + d.1) (cur.position.2 + d.2) = true ∧
        ¬(closed.any (fun nn =>
          decide (nn.position = (cur.position.1 + d.1, cur.position.2 + d.2))) = true) := by
      refine ⟨hw, ?_⟩
      intro hany
      have hthis := (any_position_iff _ _).mp hany
      rw [hfe] at hthis
      exact Bool.noConfusion hthis
    rw [if_pos hcond]

/-! ### The A* invariant -/

/-- The A* loop invariant relating the open heap and the closed list.
`settled` is optimality of first closed entries, `frontier` says every
unclosed walkable neighbour of a settled cell is queued one step further,
`g_bound` is the potential-function bound, and the parent fields describe
the reconstruction links. -/
structure AInv (m : Map) (start goal : Int × Int)
    (opens : List Node) (closed : List Node) : Prop where
  f_eq : ∀ n ∈ opens, n.f_cost = n.g_cost + manhattan_distance n.position goal
  g_walk : ∀ n ∈ opens, 0 ≤ n.g_cost ∧ GWalk m start n.position n.g_cost.toNat
  o_parent : ∀ n ∈ opens,
    (n.parent = none ∧ n.position = start ∧ n.g_cost = 0) ∨
    (∃ q, n.parent = some q ∧
      (∃ d ∈ nbrDeltas, n.position = (q.1 + d.1, q.2 + d.2)) ∧
      m.is_walkable n.position.1 n.position.2 = true ∧ 1 ≤ n.g_cost ∧
      GWalk m start q (n.g_cost - 1).toNat ∧ (firstEntry? closed q).isSome = true)
  o_pos : ∀ n ∈ opens, n.position = start ∨
    m.is_walkable n.position.1 n.position.2 = true
  g_bound : ∀ n ∈ opens,
    n.g_cost.toNat + (if (firstEntry? closed n.position).isSome then 1 else 0)
      ≤ dCount closed
  c_pos : ∀ e ∈ closed, e.position = start ∨
    m.is_walkable e.position.1 e.position.2 = true
  settled : ∀ q e, firstEntry? closed q = some e →
    0 ≤ e.g_cost ∧ GWalk m start q e.g_cost.toNat ∧
      ∀ j, GWalk m start q j → e.g_cost.toNat ≤ j
  c_parent : ∀ q e, firstEntry? closed q = some e →
    (e.parent = none ∧ e.position = start ∧ e.g_cost = 0) ∨
    (∃ q2, e.parent = some q2 ∧
      (∃ d ∈ nbrDeltas, e.position = (q2.1 + d.1, q2.2 + d.2)) ∧
      m.is_walkable e.position.1 e.position.2 = true ∧ 1 ≤ e.g_cost ∧
      GWalk m start q2 (e.g_cost - 1).toNat ∧ (firstEntry? closed q2).isSome = true)
  frontier : ∀ q e, firstEntry? closed q = some e → ∀ w,
    (∃ d ∈ nbrDeltas, w = (q.1 + d.1, q.2 + d.2)) →
    m.is_walkable w.1 w.2 = true → firstEntry? closed w = none →
    ∃ n ∈ opens, n.position = w ∧ n.g_cost = e.g_cost + 1
  start_ok : (firstEntry? closed start).isSome = true ∨
    ∃ n ∈ opens, n.position = start ∧ n.g_cost = 0
  goal_open : firstEntry? closed goal = none

/-- The invariant holds at the initial state. -/
lemma AInv_init (m : Map) (start goal : Int × Int) :
    AInv m start goal
      [{ position := start, g_cost := 0, f_cost := manhattan_distance start goal,
         parent := none }] [] := by
  constructor
  · intro n hn
    rw [List.mem_singleton] at hn
    subst hn
    simp
  · intro n hn
    rw [List.mem_singleton] at hn
    subst hn
    exact ⟨le_refl 0, GWalk.nil start⟩
  · intro n hn
    rw [List.mem_singleton] at hn
    subst hn
    exact Or.inl ⟨rfl, rfl, rfl⟩
  · intro n hn
    rw [List.mem_singleton] at hn
    subst hn
    exact Or.inl rfl
  · intro n hn
    rw [List.mem_singleton] at hn
    subst hn
    simp [firstEntry?, dCount]
  · intro e he
    exact absurd he (List.not_mem_nil e)
  · intro q e he
    exact absurd he (by simp [firstEntry?])
  · intro q e he
    exact absurd he (by simp [firstEntry?])
  · intro q e he
    exact absurd he (by simp [firstEntry?])
  · exact Or.inr ⟨_, List.mem_singleton_self _, rfl, rfl⟩
  · simp [firstEntry?]

/-- Cover: a walk from a settled cell to an unclosed cell passes an open
node whose cost-so-far plus remaining distance is within the settled cost
plus the walk length. -/
lemma cover_walk {m : Map} {start goal : Int × Int} {opens closed : List Node}
    (inv : AInv m start goal opens closed) :
    ∀ {v z : Int × Int} {k : Nat}, GWalk m v z k → ∀ e,
      firstEntry? closed v = some e → firstEntry? closed z = none →
      ∃ n ∈ opens, ∃ kz, GWalk m n.position z kz ∧
        n.g_cost.toNat + kz ≤ e.g_cost.toNat + k := by
  intro v z k hwalk
  induction hwalk with
  | nil p =>
    intro e hfe hz
    rw [hfe] at hz
    exact Option.noConfusion hz
  | cons hd hw tail ih =>
    rename_i p q r n
    intro e hfe hz
    cases hqe : firstEntry? closed q with
    | none =>
      obtain ⟨nn, hnn, hpos, hg⟩ := inv.frontier p e hfe q hd hw hqe
      have hge := (inv.settled p e hfe).1
      refine ⟨nn, hnn, n, ?_, ?_⟩
      · rw [hpos]
        exact tail
      · rw [hg]
        have : (e.g_cost + 1).toNat = e.g_cost.toNat + 1 := by omega
        omega
    | some e2 =>
      have hs := inv.settled p e hfe
      have hs2 := inv.settled q e2 hqe
      have he2 : e2.g_cost.toNat ≤ e.g_cost.toNat + 1 :=
        hs2.2.2 _ (hs.2.1.snoc hd hw)
      obtain ⟨nn, hnn, kz, hwz, hb⟩ := ih e2 hqe hz
      exact ⟨nn, hnn, kz, hwz, by omega⟩

/-- Cover from the start: any walk from the start to an unclosed cell is
dominated by an open node. -/
lemma cover_start {m : Map} {start goal : Int × Int} {opens closed : List Node}
    (inv : AInv m start goal opens closed) :
    ∀ (j : Nat) (z : Int × Int), GWalk m start z j → firstEntry? closed z = none →
      ∃ n ∈ opens, ∃ kz, GWalk m n.position z kz ∧ n.g_cost.toNat + kz ≤ j := by
  intro j z hwalk hz
  rcases inv.start_ok with hs | ⟨n0, hn0, hpos, hg⟩
  · obtain ⟨e0, he0⟩ := Option.isSome_iff_exists.mp hs
    have hopt := (inv.settled start e0 he0).2.2 0 (GWalk.nil start)
    obtain ⟨nn, hnn, kz, hwz, hb⟩ := cover_walk inv hwalk e0 he0 hz
    exact ⟨nn, hnn, kz, hwz, by omega⟩
  · refine ⟨n0, hn0, j, ?_, ?_⟩
    · rw [hpos]
      exact hwalk
    · rw [hg]
      simp

/-- First-pop optimality: a popped node at an unclosed position carries a
minimal cost-so-far (the heuristic is consistent, so the minimal-`f` pop
discipline settles positions optimally). -/
lemma pop_optimal {m : Map} {start goal : Int × Int} {opens closed : List Node}
    (inv : AInv m start goal opens closed)
    {cur : Node} {rest : List Node} (hpop : popMinFCost opens = some (cur, rest))
    (hfresh : firstEntry? closed cur.position = none) :
    ∀ j, GWalk m start cur.position j → cur.g_cost.toNat ≤ j := by
  intro j hwalk
  obtain ⟨hperm, hmin⟩ := popMinFCost_spec _ _ _ hpop
  obtain ⟨nn, hnn, kz, hwz, hb⟩ := cover_start inv j cur.position hwalk hfresh
  have hcur_mem : cur ∈ opens := hperm.mem_iff.mpr (List.mem_cons_self _ _)
  have hf_cur := inv.f_eq cur hcur_mem
  have hf_nn := inv.f_eq nn hnn
  have hcons := manhattan_le_walk goal hwz
  have hle := hmin nn hnn
  have hg_cur := (inv.g_walk cur hcur_mem).1
  have hg_nn := (inv.g_walk nn hnn).1
  omega

lemma step_ne_self {d : Int × Int} (p : Int × Int) (hd : d ∈ nbrDeltas) :
    (p.1 + d.1, p.2 + d.2) ≠ p := by
  intro h
  have h1 := congrArg Prod.fst h
  have h2 := congrArg Prod.snd h
  dsimp only at h1 h2
  simp only [nbrDeltas, List.mem_cons, List.not_mem_nil, or_false] at hd
  rcases hd with rfl | rfl | rfl | rfl <;> dsimp only at h1 h2 <;> omega

lemma firstEntry?_mono_some (closed : List Node) (cur : Node) {q : Int × Int} {e : Node}
    (h : firstEntry? closed q = some e) :
    firstEntry? (insertClosed closed cur) q = some e := by
  rw [firstEntry?_insertClosed, h]
  simp

lemma firstEntry?_mono_isSome (closed : List Node) (cur : Node) {q : Int × Int}
    (h : (firstEntry? closed q).isSome = true) :
    (firstEntry? (insertClosed closed cur) q).isSome = true := by
  obtain ⟨e, he⟩ := Option.isSome_iff_exists.mp h
  rw [firstEntry?_mono_some closed cur he]
  rfl

lemma firstEntry?_mono_none (closed : List Node) (cur : Node) {q : Int × Int}
    (h : firstEntry? (insertClosed closed cur) q = none) :
    firstEntry? closed q = none := by
  rw [firstEntry?_insertClosed] at h
  split at h
  · exact h
  · rename_i hns
    exact Option.not_isSome_iff_eq_none.mp hns

lemma firstEntry?_insert_self_isSome (closed : List Node) (cur : Node) :
    (firstEntry? (insertClosed closed cur) cur.position).isSome = true := by
  rw [firstEntry?_insertClosed]
  split
  · rename_i hs
    exact hs
  · rw [if_pos rfl]
    rfl

lemma firstEntry?_ne_of_insert_none {closed : List Node} {cur : Node} {q : Int × Int}
    (h : firstEntry? (insertClosed closed cur) q = none) : q ≠ cur.position := by
  intro he
  subst he
  rw [firstEntry?_insertClosed] at h
  split at h
  · rename_i hs
    rw [h] at hs
    exact Bool.noConfusion hs
  · rw [if_pos rfl] at h
    exact Option.noConfusion h


lemma firstEntry?_isSome_of_insert {closed : List Node} {cur : Node} {q : Int × Int}
    (h : (firstEntry? (insertClosed closed cur) q).isSome = true) :
    (firstEntry? closed q).isSome = true ∨ q = cur.position := by
  rw [firstEntry?_insertClosed] at h
  split at h
  · rename_i hs
    exact Or.inl hs
  · split at h
    · rename_i hq
      exact Or.inr hq
    · exact absurd h (by simp)

/-- One non-goal iteration of the loop preserves the invariant. -/
lemma step_preserve {m : Map} {start goal : Int × Int} {opens closed : List Node}
    (inv : AInv m start goal opens closed)
    {cur : Node} {rest : List Node} (hpop : popMinFCost opens = some (cur, rest))
    (hne : cur.position ≠ goal) :
    AInv m start goal (rest ++ pushList m goal cur closed)
      (insertClosed closed cur) := by
  obtain ⟨hperm, hmin⟩ := popMinFCost_spec _ _ _ hpop
  have hcur_mem : cur ∈ opens := hperm.mem_iff.mpr (List.mem_cons_self _ _)
  have hrest_sub : ∀ n ∈ rest, n ∈ opens := fun n hn =>
    hperm.mem_iff.mpr (List.mem_cons_of_mem _ hn)
  have hg0 := (inv.g_walk cur hcur_mem).1
  constructor
  -- f_eq
  · intro n hn
    rcases List.mem_append.mp hn with hn | hn
    · exact inv.f_eq n (hrest_sub n hn)
    · obtain ⟨np, _, _, _, rfl⟩ := (mem_pushList m goal cur closed n).mp hn
      rfl
  -- g_walk
  · intro n hn
    rcases List.mem_append.mp hn with hn | hn
    · exact (inv.g_walk n (hrest_sub n hn))
    · obtain ⟨np, hstep, hw, _, rfl⟩ := (mem_pushList m goal cur closed n).mp hn
      constructor
      · show (0 : Int) ≤ cur.g_cost + 1
        omega
      · have hwk := (inv.g_walk cur hcur_mem).2
        have he : (cur.g_cost + 1).toNat = cur.g_cost.toNat + 1 := by omega
        show GWalk m start np (cur.g_cost + 1).toNat
        rw [he]
        exact hwk.snoc hstep hw
  -- o_parent
  · intro n hn
    rcases List.mem_append.mp hn with hn | hn
    · rcases inv.o_parent n (hrest_sub n hn) with h | ⟨q, h1, h2, h3, h4, h5, h6⟩
      · exact Or.inl h
      · exact Or.inr ⟨q, h1, h2, h3, h4, h5, firstEntry?_mono_isSome closed cur h6⟩
    · obtain ⟨np, hstep, hw, hfe, rfl⟩ := (mem_pushList m goal cur closed n).mp hn
      refine Or.inr ⟨cur.position, rfl, hstep, hw, ?_, ?_, ?_⟩
      · show (1 : Int) ≤ cur.g_cost + 1
        omega
      · have hwk := (inv.g_walk cur hcur_mem).2
        have he : (cur.g_cost + 1 - 1).toNat = cur.g_cost.toNat := by omega
        show GWalk m start cur.position (cur.g_cost + 1 - 1).toNat
        rw [he]
        exact hwk
      · exact firstEntry?_insert_self_isSome closed cur
  -- o_pos
  · intro n hn
    rcases List.mem_append.mp hn with hn | hn
    · exact inv.o_pos n (hrest_sub n hn)
    · obtain ⟨np, _, hw, _, rfl⟩ := (mem_pushList m goal cur closed n).mp hn
      exact Or.inr hw
  -- g_bound
  · intro n hn
    rw [dCount_insertClosed]
    rcases List.mem_append.mp hn with hn | hn
    · have hb := inv.g_bound n (hrest_sub n hn)
      by_cases hfresh : (firstEntry? closed cur.position).isSome = true
      · rw [if_pos hfresh]
        split
        · rename_i hs'
          have hs : (firstEntry? closed n.position).isSome = true := by
            rcases firstEntry?_isSome_of_insert hs' with hs | hq
            · exact hs
            · rw [hq]
              exact hfresh
          rw [if_pos hs] at hb
          omega
        · split at hb <;> omega
      · rw [if_neg hfresh]
        split at hb <;> split <;> omega
    · obtain ⟨np, hstep, hw, hfe, rfl⟩ := (mem_pushList m goal cur closed n).mp hn
      have hcb := inv.g_bound cur hcur_mem
      have hni : firstEntry? (insertClosed closed cur) np = none := by
        obtain ⟨d, hd, rfl⟩ := hstep
        rw [firstEntry?_insertClosed, hfe]
        simp only [Option.isSome_none, Bool.false_eq_true, if_false]
        split
        · rename_i hq
          exact absurd hq (step_ne_self cur.position hd)
        · rfl
      show (cur.g_cost + 1).toNat +
        (if (firstEntry? (insertClosed closed cur) np).isSome = true then 1 else 0) ≤ _
      rw [hni]
      simp only [Option.isSome_none, Bool.false_eq_true, if_false]
      by_cases hfresh : (firstEntry? closed cur.position).isSome = true
      · rw [if_pos hfresh]
        rw [if_pos hfresh] at hcb
        omega
      · rw [if_neg hfresh]
        rw [if_neg hfresh] at hcb
        omega
  -- c_pos
  · intro e he
    rcases (mem_insertClosed closed cur e).mp he with he | he
    · exact inv.c_pos e he
    · rw [he]
      exact inv.o_pos cur hcur_mem
  -- settled
  · intro q e he
    rw [firstEntry?_insertClosed] at he
    split at he
    · exact inv.settled q e he
    · rename_i hns
      split at he
      · rename_i hq
        subst hq
        have he' : cur = e := Option.some.inj he
        subst he'
        have hfresh := Option.not_isSome_iff_eq_none.mp hns
        exact ⟨hg0, (inv.g_walk cur hcur_mem).2, pop_optimal inv hpop hfresh⟩
      · exact Option.noConfusion he
  -- c_parent
  · intro q e he
    rw [firstEntry?_insertClosed] at he
    split at he
    · rcases inv.c_parent q e he with h | ⟨q2, h1, h2, h3, h4, h5, h6⟩
      · exact Or.inl h
      · exact Or.inr ⟨q2, h1, h2, h3, h4, h5, firstEntry?_mono_isSome closed cur h6⟩
    · split at he
      · rename_i hq
        subst hq
        have he' : cur = e := Option.some.inj he
        subst he'
        rcases inv.o_parent cur hcur_mem with h | ⟨q2, h1, h2, h3, h4, h5, h6⟩
        · exact Or.inl h
        · exact Or.inr ⟨q2, h1, h2, h3, h4, h5, firstEntry?_mono_isSome closed cur h6⟩
      · exact Option.noConfusion he
  -- frontier
  · intro q e he w hstep hw hwnone
    have hwnone0 : firstEntry? closed w = none := firstEntry?_mono_none closed cur hwnone
    have hwne : w ≠ cur.position := firstEntry?_ne_of_insert_none hwnone
    rw [firstEntry?_insertClosed] at he
    split at he
    · obtain ⟨n0, hn0, hpos, hg⟩ := inv.frontier q e he w hstep hw hwnone0
      rcases List.mem_cons.mp (hperm.mem_iff.mp hn0) with rfl | hn0r
      · exact absurd hpos.symm hwne
      · exact ⟨n0, List.mem_append_left _ hn0r, hpos, hg⟩
    · split at he
      · rename_i hq
        subst hq
        have he' : cur = e := Option.some.inj he
        subst he'
        have hmem : Node.mk w (cur.g_cost + 1)
            (cur.g_cost + 1 + manhattan_distance w goal) (some cur.position)
              ∈ pushList m goal cur closed :=
          (mem_pushList m goal cur closed _).mpr ⟨w, hstep, hw, hwnone0, rfl⟩
        exact ⟨_, List.mem_append_right _ hmem, rfl, rfl⟩
      · exact Option.noConfusion he
  -- start_ok
  · rcases inv.start_ok with hs | ⟨n0, hn0, hpos, hg⟩
    · exact Or.inl (firstEntry?_mono_isSome closed cur hs)
    · rcases List.mem_cons.mp (hperm.mem_iff.mp hn0) with rfl | hn0r
      · left
        rw [← hpos]
        exact firstEntry?_insert_self_isSome closed n0
      · exact Or.inr ⟨n0, List.mem_append_left _ hn0r, hpos, hg⟩
  -- goal_open
  · rw [firstEntry?_insertClosed, inv.goal_open]
    simp only [Option.isSome_none, Bool.false_eq_true, if_false]
    split
    · rename_i h
      exact absurd h.symm hne
    · rfl


/-- One non-goal iteration strictly decreases the loop potential. -/
lemma step_phi_decrease {m : Map} {start goal : Int × Int} {opens closed : List Node}
    (inv : AInv m start goal opens closed)
    {cur : Node} {rest : List Node} (hpop : popMinFCost opens = some (cur, rest)) :
    phiSum (m.width * m.height + 2) (rest ++ pushList m goal cur closed) <
      phiSum (m.width * m.height + 2) opens := by
  obtain ⟨hperm, hmin⟩ := popMinFCost_spec _ _ _ hpop
  have hcur_mem : cur ∈ opens := hperm.mem_iff.mpr (List.mem_cons_self _ _)
  have hg0 := (inv.g_walk cur hcur_mem).1
  have hgb := inv.g_bound cur hcur_mem
  have hD := dCount_le m start closed inv.c_pos
  set K := m.width * m.height + 2 with hK
  have hgK : cur.g_cost.toNat + 1 ≤ K := by
    split at hgb <;> omega
  rw [phiSum_perm K hperm, phiSum_append]
  have hcons : phiSum K (cur :: rest) = nodePhi K cur + phiSum K rest := by
    simp [phiSum]
  rw [hcons]
  have hpushed_each : ∀ n ∈ pushList m goal cur closed,
      nodePhi K n = 5 ^ (K - cur.g_cost.toNat - 1) := by
    intro n hn
    obtain ⟨np, _, _, _, rfl⟩ := (mem_pushList m goal cur closed n).mp hn
    show 5 ^ (K - (cur.g_cost + 1).toNat) = _
    congr 1
    omega
  have hlen := pushList_length_le m goal cur closed
  have hpush : phiSum K (pushList m goal cur closed) ≤
      4 * 5 ^ (K - cur.g_cost.toNat - 1) := by
    have h1 : ((pushList m goal cur closed).map (nodePhi K)).sum ≤
        ((pushList m goal cur closed).map (nodePhi K)).length •
          (5 ^ (K - cur.g_cost.toNat - 1)) := by
      apply List.sum_le_card_nsmul
      intro x hx
      rw [List.mem_map] at hx
      obtain ⟨n, hn, rfl⟩ := hx
      rw [hpushed_each n hn]
    rw [List.length_map, smul_eq_mul] at h1
    apply le_trans h1
    exact Nat.mul_le_mul_right _ hlen
  have hlt : 4 * 5 ^ (K - cur.g_cost.toNat - 1) < 5 ^ (K - cur.g_cost.toNat) := by
    have h5 : 0 < 5 ^ (K - cur.g_cost.toNat - 1) := pow_pos (by norm_num) _
    have he : 5 ^ (K - cur.g_cost.toNat) = 5 ^ (K - cur.g_cost.toNat - 1) * 5 := by
      rw [← pow_succ]
      congr 1
      omega
    rw [he]
    omega
  have hphi_cur : nodePhi K cur = 5 ^ (K - cur.g_cost.toNat) := rfl
  omega


/-- Reconstruction: following earliest closed entries from an optimally
settled node yields the goal-first parent chain — `g + 1` cells, from the
node's position back to the start, each consecutive pair one grid step
apart and every cell except the start walkable. -/
lemma recon_correct {m : Map} {start : Int × Int} {closed : List Node}
    (hsettled : ∀ q e, firstEntry? closed q = some e →
      0 ≤ e.g_cost ∧ GWalk m start q e.g_cost.toNat ∧
        ∀ j, GWalk m start q j → e.g_cost.toNat ≤ j)
    (hcparent : ∀ q e, firstEntry? closed q = some e →
      (e.parent = none ∧ e.position = start ∧ e.g_cost = 0) ∨
      (∃ q2, e.parent = some q2 ∧
        (∃ d ∈ nbrDeltas, e.position = (q2.1 + d.1, q2.2 + d.2)) ∧
        m.is_walkable e.position.1 e.position.2 = true ∧ 1 ≤ e.g_cost ∧
        GWalk m start q2 (e.g_cost - 1).toNat ∧
        (firstEntry? closed q2).isSome = true)) :
    ∀ (gN : Nat) (node : Node) (fuel : Nat),
      node.g_cost.toNat = gN → 0 ≤ node.g_cost →
      GWalk m start node.position node.g_cost.toNat →
      (∀ j, GWalk m start node.position j → node.g_cost.toNat ≤ j) →
      ((node.parent = none ∧ node.position = start ∧ node.g_cost = 0) ∨
       (∃ q2, node.parent = some q2 ∧
         (∃ d ∈ nbrDeltas, node.position = (q2.1 + d.1, q2.2 + d.2)) ∧
         m.is_walkable node.position.1 node.position.2 = true ∧ 1 ≤ node.g_cost ∧
         GWalk m start q2 (node.g_cost - 1).toNat ∧
         (firstEntry? closed q2).isSome = true)) →
      gN < fuel →
      (reconChain closed fuel node).length = gN + 1 ∧
      (reconChain closed fuel node).head? = some node.position ∧
      (reconChain closed fuel node).getLast? = some start ∧
      (reconChain closed fuel node).Chain'
        (fun p q => ∃ d ∈ nbrDeltas, p = (q.1 + d.1, q.2 + d.2)) ∧
      (∀ p ∈ (reconChain closed fuel node).dropLast,
        m.is_walkable p.1 p.2 = true) := by
  intro gN
  induction gN using Nat.strong_induction_on with
  | _ gN ih =>
    intro node fuel hg hg0 hwalk hopt hlink hfuel
    cases fuel with
    | zero => omega
    | succ fuel =>
      rcases hlink with ⟨hpn, hps, hgz⟩ | ⟨q2, hpar, hstep, hwpos, hg1, hwq2, hq2some⟩
      · have hgN0 : gN = 0 := by omega
        subst hgN0
        have hred : reconChain closed (fuel + 1) node = [node.position] := by
          simp [reconChain, hpn]
        rw [hred]
        refine ⟨rfl, rfl, ?_, ?_, ?_⟩
        · rw [hps]
          rfl
        · simp
        · simp
      · have hgN1 : 1 ≤ gN := by omega
        obtain ⟨e', he'⟩ := Option.isSome_iff_exists.mp hq2some
        have he'pos := firstEntry?_position _ _ _ he'
        obtain ⟨he'g0, he'walk, he'opt⟩ := hsettled q2 e' he'
        have hle1 : e'.g_cost.toNat ≤ gN - 1 := by
          have h := he'opt _ hwq2
          omega
        have hge1 : gN ≤ e'.g_cost.toNat + 1 := by
          have hw2 : GWalk m start node.position (e'.g_cost.toNat + 1) :=
            he'walk.snoc hstep hwpos
          have h := hopt _ hw2
          omega
        have he'g : e'.g_cost.toNat = gN - 1 := by omega
        have hred : reconChain closed (fuel + 1) node =
            node.position :: reconChain closed fuel e' := by
          simp only [reconChain, hpar]
          rw [he']
        obtain ⟨ihlen, ihhead, ihlast, ihchain, ihwalk⟩ :=
          ih (gN - 1) (by omega) e' fuel he'g he'g0
            (by rw [he'pos]; exact he'walk)
            (by rw [he'pos]; exact he'opt)
            (hcparent q2 e' he') (by omega)
        cases hchain : reconChain closed fuel e' with
        | nil =>
          rw [hchain] at ihlen
          simp at ihlen
        | cons a t =>
          rw [hchain] at ihlen ihhead ihlast ihchain ihwalk
          have ha : a = e'.position := by
            simp only [List.head?_cons, Option.some_inj] at ihhead
            exact ihhead
          rw [hred, hchain]
          refine ⟨?_, rfl, ?_, ?_, ?_⟩
          · simp only [List.length_cons] at ihlen ⊢
            omega
          · rw [List.getLast?_cons_cons]
            exact ihlast
          · rw [List.chain'_cons]
            refine ⟨?_, ihchain⟩
            rw [ha, he'pos]
            exact hstep
          · rw [List.dropLast_cons₂]
            intro p hp
            rcases List.mem_cons.mp hp with rfl | hp
            · exact hwpos
            · exact ihwalk p hp

/-- Main-loop correctness: from any invariant state with fuel above the
potential, the loop returns (fuel never runs out); a returned path is a
shortest start-to-goal path, and a `none` result means no walk reaches the
goal. -/
lemma searchLoop_correct (m : Map) (start goal : Int × Int) :
    ∀ (fuel : Nat) (opens closed : List Node),
      AInv m start goal opens closed →
      phiSum (m.width * m.height + 2) opens < fuel →
      (∃ r, searchLoop m goal fuel opens closed = some r) ∧
      (∀ l, searchLoop m goal fuel opens closed = some (some l) →
        IsPathList m start goal l ∧ GWalk m start goal (l.length - 1) ∧
        ∀ j, GWalk m start goal j → l.length - 1 ≤ j) ∧
      (searchLoop m goal fuel opens closed = some none →
        ∀ j, ¬ GWalk m start goal j) := by
  intro fuel
  induction fuel with
  | zero =>
    intro opens closed _ hphi
    omega
  | succ fuel ih =>
    intro opens closed inv hphi
    cases hpop : popMinFCost opens with
    | none =>
      have hopens : opens = [] := (popMinFCost_none opens).mp hpop
      have hrun : searchLoop m goal (fuel + 1) opens closed = some none := by
        simp only [searchLoop, hpop]
      refine ⟨⟨none, hrun⟩, ?_, ?_⟩
      · intro l hl
        rw [hrun] at hl
        exact absurd hl (by simp)
      · intro _ j hwalk
        obtain ⟨n, hn, _⟩ := cover_start inv j goal hwalk inv.goal_open
        rw [hopens] at hn
        exact absurd hn (List.not_mem_nil n)
    | some pr =>
      obtain ⟨cur, rest⟩ := pr
      by_cases hgoal : cur.position = goal
      · have hrun : searchLoop m goal (fuel + 1) opens closed =
            some (some (reconstructPath closed cur)) := by
          simp only [searchLoop, hpop]
          rw [if_pos hgoal]
        have hcur_mem : cur ∈ opens :=
          (popMinFCost_spec _ _ _ hpop).1.mem_iff.mpr (List.mem_cons_self _ _)
        have hfresh : firstEntry? closed cur.position = none := by
          rw [hgoal]
          exact inv.goal_open
        have hopt := pop_optimal inv hpop hfresh
        have hg := inv.g_walk cur hcur_mem
        have hflen : cur.g_cost.toNat < closed.length + 1 := by
          have hb := inv.g_bound cur hcur_mem
          have hd : dCount closed ≤ closed.length := by
            have h1 := List.toFinset_card_le (closed.map Node.position)
            rw [List.length_map] at h1
            exact h1
          split at hb <;> omega
        obtain ⟨rlen, rhead, rlast, rchain, rwk⟩ :=
          recon_correct inv.settled inv.c_parent cur.g_cost.toNat cur
            (closed.length + 1) rfl hg.1 hg.2 hopt (inv.o_parent cur hcur_mem)
            hflen
        refine ⟨⟨some (reconstructPath closed cur), hrun⟩, ?_, ?_⟩
        · intro l hl
          rw [hrun] at hl
          have hleq : l = (reconChain closed (closed.length + 1) cur).reverse := by
            have h1 := Option.some.inj hl
            exact (Option.some.inj h1).symm
          subst hleq
          have hlen' : (reconChain closed (closed.length + 1) cur).reverse.length =
              cur.g_cost.toNat + 1 := by
            rw [List.length_reverse]
            exact rlen
          refine ⟨⟨?_, ?_, ?_, ?_⟩, ?_, ?_⟩
          · rw [List.head?_reverse]
            exact rlast
          · rw [List.getLast?_reverse, rhead, hgoal]
          · rw [List.chain'_reverse]
            exact rchain
          · intro p hp
            rw [List.tail_reverse_eq_reverse_dropLast, List.mem_reverse] at hp
            exact rwk p hp
          · rw [hlen']
            simp only [Nat.add_sub_cancel]
            rw [← hgoal]
            exact hg.2
          · intro j hwalk
            rw [hlen']
            simp only [Nat.add_sub_cancel]
            refine hopt j ?_
            rw [hgoal]
            exact hwalk
        · intro hl
          rw [hrun] at hl
          exact absurd hl (by simp)
      · have inv' := step_preserve inv hpop hgoal
        have hphi' := step_phi_decrease inv hpop
        have hrun : searchLoop m goal (fuel + 1) opens closed =
            searchLoop m goal fuel (rest ++ pushList m goal cur closed)
              (insertClosed closed cur) := by
          simp only [searchLoop, hpop]
          rw [if_neg hgoal]
        obtain ⟨⟨r, hr⟩, hsome, hnone⟩ := ih _ _ inv' (by omega)
        refine ⟨⟨r, by rw [hrun]; exact hr⟩, ?_, ?_⟩
        · intro l hl
          rw [hrun] at hl
          exact hsome l hl
        · intro hl
          rw [hrun] at hl
          exact hnone hl

/-- C1: `find_path` is a correct and optimal shortest-path search. If any
4-directional walk through walkable cells joins `start` to `goal` (same
connected region) it returns `some` path that starts at `start`, ends at
`goal`, moves one cell at a time through walkable cells, and whose step
count `length - 1` equals the minimal walk length; if no walk joins them
(disconnected regions) it returns `none`. -/
theorem c1_find_path_shortest (m : Map) (start goal : Int × Int) :
    ((∃ j, GWalk m start goal j) →
      ∃ l, m.find_path start goal = some l ∧ IsPathList m start goal l ∧
        GWalk m start goal (l.length - 1) ∧
        ∀ j, GWalk m start goal j → l.length - 1 ≤ j) ∧
    ((∀ j, ¬ GWalk m start goal j) → m.find_path start goal = none) := by
  have hphi0 : phiSum (m.width * m.height + 2)
      [{ position := start, g_cost := 0,
         f_cost := manhattan_distance start goal, parent := none }] <
      searchFuel m := by
    have he : phiSum (m.width * m.height + 2)
        [{ position := start, g_cost := 0,
           f_cost := manhattan_distance start goal, parent := none }] =
        5 ^ (m.width * m.height + 2) := by
      simp [phiSum, nodePhi]
    rw [he, searchFuel]
    exact Nat.pow_lt_pow_right (by norm_num) (by omega)
  obtain ⟨⟨r, hr⟩, hsome, hnone⟩ :=
    searchLoop_correct m start goal (searchFuel m)
      [{ position := start, g_cost := 0,
         f_cost := manhattan_distance start goal, parent := none }] []
      (AInv_init m start goal) hphi0
  have hfp : m.find_path start goal = r := by
    simp only [Map.find_path]
    rw [hr]
  constructor
  · rintro ⟨j, hwalk⟩
    cases r with
    | none => exact absurd hwalk (hnone hr j)
    | some l =>
      obtain ⟨hpl, hwl, hmin⟩ := hsome l hr
      exact ⟨l, hfp, hpl, hwl, hmin⟩
  · intro hunreach
    cases r with
    | some l =>
      obtain ⟨_, hwl, _⟩ := hsome l hr
      exact absurd hwl (hunreach _)
    | none => exact hfp

/-- A tiny concrete floor for exercising the pathfinder: a 4-by-3 grid
whose middle row has two adjacent floor cells. -/
def c1wMap : Map :=
  { width := 4
    height := 3
    tiles := [[Tile.Wall, Tile.Wall, Tile.Wall, Tile.Wall],
              [Tile.Wall, Tile.Floor, Tile.Floor, Tile.Wall],
              [Tile.Wall, Tile.Wall, Tile.Wall, Tile.Wall]]
    rooms := []
    level := 0
    up_stairs := none
    down_stairs := none }

/-- The pathfinder correctness theorem applied to the concrete floor
`c1wMap` between the two adjacent floor cells, the connectivity hypothesis
discharged by the explicit one-step walk. -/
theorem c1_find_path_shortest_witness :
    ∃ l, c1wMap.find_path (1, 1) (2, 1) = some l ∧
      IsPathList c1wMap (1, 1) (2, 1) l ∧
      GWalk c1wMap (1, 1) (2, 1) (l.length - 1) ∧
      ∀ j, GWalk c1wMap (1, 1) (2, 1) j → l.length - 1 ≤ j :=
  (c1_find_path_shortest c1wMap (1, 1) (2, 1)).1
    ⟨1, GWalk.cons ⟨((1 : Int), (0 : Int)), by decide, by decide⟩
      (by decide) (GWalk.nil _)⟩

end Forge
